import Mathlib

/-!
Shallow embedding of the entity-component-system engine
(`entity_component_system.h`): the columnar store `detail::Arc`, the
registry `ecs::Scene`, and the entity-lifecycle / query operations.

Modelling conventions:
* Component values are opaque to the engine, so stores are generic over a
  value type `α`.  A component *type* is identified by a `Nat` tag; the
  identity column (`EntityHandle`, always the first column of an
  `EntityArchetype`) is addressed by the selector `Sel.handle`.
* `uint64_t` arithmetic is `Nat` with an explicit `% 2 ^ 64` at the points
  where the source can overflow (`entity.id + (1ull << 32)`), and
  `id & UINT32_MAX` is `id % 2 ^ 32`.  The `size_t` expression
  `(id & UINT32_MAX) - 1` wraps at `id & UINT32_MAX == 0`, which the model
  reproduces by adding `2 ^ 64 - 1` modulo `2 ^ 64`.
* `std::vector::operator[]` out of range is undefined behaviour in the
  source; the model totalises it with `List.getD` / `List.set` (a no-op
  store, default read) and every theorem that relies on an access carries
  the in-range hypothesis, so the defaulted branch never matters.
* The parallel per-type buffers of an `Arc` hold constructed values exactly
  at indices `[0, count)`; the model keeps that constructed prefix as a
  list of rows (`rows`), one entry per occupied index, next to the
  `capacity`/`count` bookkeeping fields of the source.
-/

namespace ECS

/-- A requested column: the identity column (`EntityHandle`) or the
component type with the given tag. -/
inductive Sel where
  | handle : Sel
  | comp : Nat → Sel
deriving DecidableEq

/-- `ecs::EntityHandle`: `{uint64_t archetype_index; uint64_t id;}`. -/
structure EntityHandle where
  archetype_index : Nat
  id : Nat
deriving DecidableEq

/-- One occupied row of a store: the identity column plus one value per
declared component type (parallel to the store's `tys`). -/
structure Row (α : Type) where
  handle : EntityHandle
  vals : List α
deriving DecidableEq

/-- `detail::Arc<EntityHandle, Components...>`: the columnar store of one
archetype.  `tys` is the declared component-type list (the template
arguments after the identity column), `capacity`/`count` are the source's
fields, and `rows` is the constructed prefix of the parallel buffers. -/
structure Arc (α : Type) where
  tys : List Nat
  capacity : Nat
  count : Nat
  rows : List (Row α)
deriving DecidableEq

/-- Default row, used only to totalise out-of-range buffer reads. -/
def dfltRow : Row α := ⟨⟨0, 0⟩, []⟩

/-- Default store, used only to totalise out-of-range tuple access. -/
def dfltArc : Arc α := ⟨[], 0, 0, []⟩

namespace Arc

/-- `Arc::set_min_capacity` (successful-allocation path): grow `capacity`
to `min_capacity` unless it is already at least that large. -/
def set_min_capacity (a : Arc α) (min_capacity : Nat) : Arc α :=
  if min_capacity ≤ a.capacity then a else { a with capacity := min_capacity }

/-- `Arc::emplace_back()` (default-constructing, successful-allocation
path): grow via `set_min_capacity(capacity << 1)` when full, then
construct a value-initialised row at index `count` and increment `count`.
`d` is the default component value. -/
def emplace_back (d : α) (a : Arc α) : Arc α :=
  let a := if a.capacity ≤ a.count then a.set_min_capacity (a.capacity <<< 1) else a
  { a with rows := a.rows ++ [⟨⟨0, 0⟩, a.tys.map fun _ => d⟩], count := a.count + 1 }

/-- `Arc::pop_back`: destroy the last row and decrement `count`. -/
def pop_back (a : Arc α) : Arc α :=
  { a with rows := a.rows.dropLast, count := a.count - 1 }

/-- `Arc::clear`: destruct the `count` constructed values, then set
`count = 0` **and** `capacity = 0` (the buffers are not freed). -/
def clear (a : Arc α) : Arc α :=
  { a with rows := [], count := 0, capacity := 0 }

/-- `Arc::has_component<T>()`: `T` is one of the store's column types
(the identity column is always present). -/
def has_component (a : Arc α) (t : Sel) : Bool :=
  match t with
  | .handle => true
  | .comp c => a.tys.contains c

/-- `Arc::has_components<Ts...>()`. -/
def has_components (a : Arc α) (sels : List Sel) : Bool :=
  sels.all a.has_component

/-- Read one column of row `i` (the dereference of
`std::get<T*>(components_tuple) + index`, as used by `Arc::get_component`
and `Arc::get_components`; no bounds check in the source). -/
def get_sel (d : α) (a : Arc α) (t : Sel) (i : Nat) : EntityHandle ⊕ α :=
  match t with
  | .handle => .inl ((a.rows.getD i dfltRow).handle)
  | .comp c => .inr ((a.rows.getD i dfltRow).vals.getD (a.tys.indexOf c) d)

/-- `Arc::try_get_component<T>`: a pointer into column `T` at `index` when
`T` is one of the store's columns, `nullptr` otherwise.  Pointers are
modelled by the value they point at. -/
def try_get_component (d : α) (a : Arc α) (t : Sel) (i : Nat) :
    Option (EntityHandle ⊕ α) :=
  if a.has_component t then some (a.get_sel d t i) else none

/-- `archetype.at(index) = std::move(archetype.back())`: overwrite row
`index` with the whole last row (every column, identity included). -/
def set_row (a : Arc α) (i : Nat) (r : Row α) : Arc α :=
  { a with rows := a.rows.set i r }

/-- `Arc::back()`: the row at index `count - 1`. -/
def back (a : Arc α) : Row α :=
  a.rows.getD (a.count - 1) dfltRow

/-- Overwrite the identity column of the freshly appended row (the write
through the `EntityHandle&` returned by `emplace_back` that
`Scene::create_entity` performs). -/
def set_last_handle (a : Arc α) (h : EntityHandle) : Arc α :=
  { a with rows := a.rows.set (a.count - 1) { (a.rows.getD (a.count - 1) ⟨⟨0, 0⟩, []⟩) with handle := h } }

end Arc

/-- `ecs::Scene`: slot table `id_index_pairs` (`(current_id, row)` per
slot), recycle stack `recycled_ids` (head = top), and one store per
declared archetype, in declaration order. -/
structure Scene (α : Type) where
  id_index_pairs : List (Nat × Nat)
  recycled_ids : List Nat
  stores : List (Arc α)
deriving DecidableEq

namespace Scene

/-- The `size_t` slot-table index `(entity.id & UINT32_MAX) - 1`,
including the wrap to `2 ^ 64 - 1` when the low 32 bits are zero. -/
def slot_hash (e : EntityHandle) : Nat :=
  (e.id % 2 ^ 32 + (2 ^ 64 - 1)) % 2 ^ 64

/-- `Scene::find_component_index`: succeed with the stored row exactly
when the slot table entry at the handle's slot index still holds the
handle's id. -/
def find_component_index (s : Scene α) (e : EntityHandle) : Option Nat :=
  let pair := s.id_index_pairs.getD (slot_hash e) (0, 0)
  if pair.1 ≠ e.id then none else some pair.2

/-- Private `Scene::get_components<ArcIter, Ts...>`: dispatch on
`entity.archetype_index` over the archetype tuple; if the recursion
exhausts the tuple, every requested pointer is null. -/
def get_components_at (d : α) (s : Scene α) (archetype_index : Nat)
    (component_index : Nat) (sels : List Sel) : List (Option (EntityHandle ⊕ α)) :=
  match s.stores.get? archetype_index with
  | some a => sels.map fun t => a.try_get_component d t component_index
  | none => sels.map fun _ => none

/-- Public `Scene::get_components<Ts...>`: resolve the handle through the
slot table; on failure return null for every requested type. -/
def get_components (d : α) (s : Scene α) (e : EntityHandle) (sels : List Sel) :
    List (Option (EntityHandle ⊕ α)) :=
  match s.find_component_index e with
  | none => sels.map fun _ => none
  | some component_index => s.get_components_at d e.archetype_index component_index sels

/-- `Scene::create_entity<EntityArchetype>` for the archetype at index
`k`: append a default row to that store, assign the id (recycle-stack top
if available, else `id_index_pairs.size() + 1` fresh), record
`{id, row = count - 1}` in the slot table, and write the handle into the
new row's identity column. -/
def create_entity (d : α) (k : Nat) (s : Scene α) : Scene α × EntityHandle :=
  let arc := (s.stores.getD k dfltArc).emplace_back d
  match s.recycled_ids with
  | id :: rest =>
      let pairs := s.id_index_pairs.set ((id % 2 ^ 32 + (2 ^ 64 - 1)) % 2 ^ 64)
        (id, arc.count - 1)
      let handle : EntityHandle := ⟨k, id⟩
      (⟨pairs, rest, s.stores.set k (arc.set_last_handle handle)⟩, handle)
  | [] =>
      let id := s.id_index_pairs.length + 1
      let pairs := s.id_index_pairs ++ [(id, arc.count - 1)]
      let handle : EntityHandle := ⟨k, id⟩
      (⟨pairs, [], s.stores.set k (arc.set_last_handle handle)⟩, handle)

/-- Body shared by `Scene::destroy_entity<ArcIter>` and
`Scene::destroy_entity_at_arc<ArcIter>` (the two templates have identical
bodies), acting on the store at index `k`: swap-remove row
`component_index` (moving the last row in and rewriting the moved
entity's slot-table row when it is not already last), free the slot, and
push the generation-bumped id. -/
def destroy_entity_at_arc (k : Nat) (e : EntityHandle)
    (component_index : Nat) (s : Scene α) : Scene α :=
  let a := s.stores.getD k dfltArc
  let moved :=
    if component_index ≠ a.count - 1 then
      let b := a.back
      let pairs := s.id_index_pairs.set (slot_hash b.handle)
        ((s.id_index_pairs.getD (slot_hash b.handle) (0, 0)).1, component_index)
      (pairs, a.set_row component_index b)
    else
      (s.id_index_pairs, a)
  let a2 := moved.2.pop_back
  let pairs2 := moved.1.set (slot_hash e)
    (0, (moved.1.getD (slot_hash e) (0, 0)).2)
  ⟨pairs2, (e.id + 2 ^ 32) % 2 ^ 64 :: s.recycled_ids, s.stores.set k a2⟩

/-- Public `Scene::destroy_entity(EntityHandle)`: stale handles are a
silent no-op; otherwise dispatch on `entity.archetype_index` (if the
index is past the archetype tuple the recursion does nothing). -/
def destroy_entity (s : Scene α) (e : EntityHandle) : Scene α :=
  match s.find_component_index e with
  | none => s
  | some component_index =>
      if e.archetype_index < s.stores.length then
        s.destroy_entity_at_arc e.archetype_index e component_index
      else s

/-- `Scene::destroy_entities()`: push `pair.first + (1ull << 32)` for
**every** slot-table entry (free or occupied) in table order, zero every
entry, and clear every store. -/
def destroy_entities (s : Scene α) : Scene α :=
  { id_index_pairs := s.id_index_pairs.map fun _ => (0, 0)
    recycled_ids :=
      (s.id_index_pairs.map fun p => (p.1 + 2 ^ 32) % 2 ^ 64).reverse ++ s.recycled_ids
    stores := s.stores.map Arc.clear }

/-- One loop iteration of `Scene::destroy_entities_where` at row `i` of
the store at index `k`: evaluate the predicate on the requested columns of
the current row and, when it holds, destroy that row in place. -/
def dew_visit (d : α) (sels : List Sel) (p : List (EntityHandle ⊕ α) → Bool)
    (k : Nat) (i : Nat) (s : Scene α) : Scene α :=
  let a := s.stores.getD k dfltArc
  if p (sels.map fun t => a.get_sel d t i) then
    s.destroy_entity_at_arc k (a.rows.getD i dfltRow).handle i
  else s

/-- The `for (i = count - 1; i != 0; --i)` loop of
`Scene::destroy_entities_where`: `dew_loop d sels p k i` visits rows
`i, i - 1, …, 1` (row `0` is handled by the trailing conditional). -/
def dew_loop (d : α) (sels : List Sel) (p : List (EntityHandle ⊕ α) → Bool)
    (k : Nat) : Nat → Scene α → Scene α
  | 0, s => s
  | i + 1, s => dew_loop d sels p k i (dew_visit d sels p k (i + 1) s)

/-- One archetype of `Scene::destroy_entities_where`: skipped entirely
unless the store's column set contains every requested type; otherwise the
backward loop over rows `count - 1 … 1` followed by the guarded row-`0`
check (which re-reads the store's count). -/
def dew_arc (d : α) (sels : List Sel) (p : List (EntityHandle ⊕ α) → Bool)
    (k : Nat) (s : Scene α) : Scene α :=
  let a := s.stores.getD k dfltArc
  if a.has_components sels then
    if 0 < a.count then
      let s1 := dew_loop d sels p k (a.count - 1) s
      let a1 := s1.stores.getD k dfltArc
      if 0 < a1.count then dew_visit d sels p k 0 s1 else s1
    else s
  else s

/-- `Scene::destroy_entities_where(predicate)`: the archetype recursion
`ArcIter = 0 … N-1` in declaration order.  The predicate's parameter types
are `sels`; `p` is the predicate itself, applied to the selected columns. -/
def destroy_entities_where (d : α) (sels : List Sel)
    (p : List (EntityHandle ⊕ α) → Bool) (s : Scene α) : Scene α :=
  (List.range s.stores.length).foldl (fun s k => dew_arc d sels p k s) s

/-- `Scene::for_each(visitor)` observable trace: the archetype recursion
in declaration order; a matching archetype contributes one visitor
invocation per row `0 … count - 1` ascending, each carrying the requested
columns of that row; a non-matching archetype contributes nothing (the
type-set check is `if constexpr`, resolved once per archetype). -/
def for_each_trace (d : α) (sels : List Sel) :
    List (Arc α) → List (List (EntityHandle ⊕ α))
  | [] => []
  | a :: rest =>
      (if a.has_components sels then
        (List.range a.count).map fun i => sels.map fun t => a.get_sel d t i
      else []) ++ for_each_trace d sels rest

/-- `Scene::for_each` on a scene. -/
def for_each (d : α) (sels : List Sel) (s : Scene α) :
    List (List (EntityHandle ⊕ α)) :=
  for_each_trace d sels s.stores

end Scene

/-! ## Allocation-failure model (for `Arc::set_min_capacity` growth)

`Arc::reallocate_components_tuple` calls `std::realloc` once per column
and, if any call returns null, frees every *new* pointer and throws
`std::bad_alloc`.  A column whose `realloc` succeeded has had its old
buffer invalidated by `realloc` itself, so freeing the new pointer
destroys that column's data while `components_tuple` still holds the stale
old pointer.  The model tracks each column's buffer as
`Option (List β)` — `none` marks a freed / dangling buffer — and takes the
per-column allocation outcomes as an explicit list of Booleans
(`true` = that column's allocation call succeeds). -/

/-- Columnar view of a store used by the allocation model: one buffer per
column (`none` = freed / dangling). -/
structure CArc (β : Type) where
  capacity : Nat
  count : Nat
  cols : List (Option (List β))
deriving DecidableEq

namespace CArc

/-- `Arc::reallocate_components_tuple` with per-column outcomes `ok`:
all-success keeps every buffer's contents; otherwise every successfully
reallocated column is freed (data lost, stale pointer kept) and the
operation throws `std::bad_alloc`. -/
def reallocate_components_tuple (ok : List Bool) (cols : List (Option (List β))) :
    Except Unit (List (Option (List β))) :=
  if ok.all id then .ok cols
  else .error ()

/-- The column buffers left behind when `reallocate_components_tuple`
throws: a column whose `realloc` succeeded was moved and then freed
(`none`); a column whose `realloc` failed keeps its old buffer. -/
def cols_after_failed_realloc (ok : List Bool) (cols : List (Option (List β))) :
    List (Option (List β)) :=
  (cols.zip ok).map fun c => if c.2 then none else c.1

/-- `Arc::set_min_capacity` with explicit allocation outcomes.  `.ok` is
the post-state on success, `.error` the post-state at the moment
`std::bad_alloc` propagates (capacity not yet updated). -/
def set_min_capacity (ok : List Bool) (min_capacity : Nat) (a : CArc β) :
    Except (CArc β) (CArc β) :=
  if min_capacity ≤ a.capacity then .ok a
  else if a.capacity = 0 then
    -- malloc path: on failure the old (null) buffers are untouched
    if ok.all id then .ok { a with capacity := min_capacity, cols := ok.map fun _ => some [] }
    else .error a
  else
    -- realloc path
    match reallocate_components_tuple ok a.cols with
    | .ok cols => .ok { a with capacity := min_capacity, cols := cols }
    | .error _ => .error { a with cols := cols_after_failed_realloc ok a.cols }

/-- `Arc::push_back(components...)` with explicit allocation outcomes:
grow when full, then copy-construct the row at index `count`. -/
def push_back (ok : List Bool) (vals : List β) (a : CArc β) :
    Except (CArc β) (CArc β) :=
  match (if a.capacity ≤ a.count then set_min_capacity ok (a.capacity <<< 1) a
         else .ok a) with
  | .error bad => .error bad
  | .ok a' =>
      .ok { a' with
              cols := (a'.cols.zip vals).map fun c => c.1.map fun l => l ++ [c.2]
              count := a'.count + 1 }

end CArc

/-! ## Operation sequences (for handle-identity claims) -/

/-- One public lifecycle call: `create_entity` on the archetype at index
`k`, or `destroy_entity` on a caller-supplied handle. -/
inductive Op where
  | create (k : Nat)
  | destroy (e : EntityHandle)
deriving DecidableEq

namespace Scene

/-- Run a sequence of lifecycle calls, collecting the id of every handle
returned by a `create_entity` call, in call order. -/
def run (d : α) : List Op → Scene α → Scene α × List Nat
  | [], s => (s, [])
  | .create k :: rest, s =>
      let (s', h) := s.create_entity d k
      let (s'', ids) := run d rest s'
      (s'', h.id :: ids)
  | .destroy e :: rest, s => run d rest (s.destroy_entity e)

end Scene

/-! ## Specification-side descriptions

The following definitions follow the spec's words, for comparison with
the source-translated operations above. -/

/-- Spec-side read of one requested column from a row (the row's identity
column, or the value stored for the requested component type). -/
def sel_of_row (d : α) (tys : List Nat) (r : Row α) (t : Sel) : EntityHandle ⊕ α :=
  match t with
  | .handle => .inl r.handle
  | .comp c => .inr (r.vals.getD (tys.indexOf c) d)

/-- Spec-side `for_each`: every archetype whose component set is a
superset of the requested types contributes, in declaration order, one
invocation per stored row in storage order with exactly the requested
columns; other archetypes contribute nothing. -/
def for_each_spec (d : α) (sels : List Sel) (s : Scene α) :
    List (List (EntityHandle ⊕ α)) :=
  s.stores.flatMap fun a =>
    if a.has_components sels then a.rows.map fun r => sels.map (sel_of_row d a.tys r)
    else []

/-- The predicate of `destroy_entities_where` as a function of a stored
row (the engine hands the predicate exactly the requested columns). -/
def row_pred (d : α) (sels : List Sel) (p : List (EntityHandle ⊕ α) → Bool)
    (tys : List Nat) (r : Row α) : Bool :=
  p (sels.map (sel_of_row d tys r))

/-- Every store's `count` field agrees with its constructed prefix (the
spec's "all buffers have equal `count`" invariant). -/
def WF (s : Scene α) : Prop :=
  ∀ a ∈ s.stores, a.count = a.rows.length

/-! ## Identity invariant (for handle-uniqueness claims)

`IdInv s issued b` relates a scene to the multiset `issued` of ids already
handed out by `create_entity` calls, with budget `b` bounding both the
slot-table length and every generation in play (each executed operation
raises the budget by one). -/

/-- Invariant tying the slot table, the recycle stack and the ids already
issued.  Every non-free table entry and every stacked id is of the
canonical packed form `generation * 2^32 + (slot + 1)`; per slot there is
at most one token (live table entry or stacked id); stacked generations
strictly dominate, and live generations dominate, the generations of the
ids already issued for that slot. -/
def IdInv (s : Scene α) (issued : List Nat) (b : Nat) : Prop :=
  s.id_index_pairs.length ≤ b ∧
  (∀ j, j < s.id_index_pairs.length →
    (s.id_index_pairs.getD j (0, 0)).1 = 0 ∨
    ∃ g ≤ b, (s.id_index_pairs.getD j (0, 0)).1 = g * 2 ^ 32 + (j + 1)) ∧
  (∀ r ∈ s.recycled_ids, ∃ j, j < s.id_index_pairs.length ∧
    ∃ g, 1 ≤ g ∧ g ≤ b ∧ r = g * 2 ^ 32 + (j + 1)) ∧
  (∀ i ∈ issued, ∃ j, j < s.id_index_pairs.length ∧
    ∃ g ≤ b, i = g * 2 ^ 32 + (j + 1)) ∧
  (∀ j, j < s.id_index_pairs.length →
    (s.recycled_ids.filter fun r => r % 2 ^ 32 == j + 1).length +
      (if (s.id_index_pairs.getD j (0, 0)).1 = 0 then 0 else 1) ≤ 1) ∧
  (∀ i ∈ issued, ∀ j, j < s.id_index_pairs.length →
    i % 2 ^ 32 = j + 1 → (s.id_index_pairs.getD j (0, 0)).1 ≠ 0 →
    i / 2 ^ 32 ≤ (s.id_index_pairs.getD j (0, 0)).1 / 2 ^ 32) ∧
  (∀ i ∈ issued, ∀ r ∈ s.recycled_ids,
    i % 2 ^ 32 = r % 2 ^ 32 → i / 2 ^ 32 < r / 2 ^ 32)

/-! ## Generation-wraparound scenario

Repeatedly creating and immediately destroying the single entity of a
one-archetype scene issues the ids `k * 2^32 + 1 (mod 2^64)`; after
`2^32` recycles of slot `0` the 32-bit generation wraps and id `1` is
issued a second time. -/

/-- The id issued by the `k`-th create of the wraparound scenario. -/
def genId (k : Nat) : Nat := (k * 2 ^ 32 + 1) % 2 ^ 64

/-- `k` rounds of `create_entity` on archetype `0` immediately followed by
`destroy_entity` of the handle just issued. -/
def wrapOps (k : Nat) : List Op :=
  (List.range k).flatMap fun j => [Op.create 0, Op.destroy ⟨0, genId j⟩]

/-- The starting scene of the wraparound scenario: one archetype with no
component columns, an empty slot table and an empty recycle stack. -/
def sceneW : Scene Nat := ⟨[], [], [⟨[], 4, 0, []⟩]⟩

/-- The steady state of the wraparound scenario after `k ≥ 1` rounds:
slot `0` is free and the recycle stack holds the `k`-th generation-bumped
id. -/
def sceneWAt (k : Nat) : Scene Nat := ⟨[(0, 0)], [genId k], [⟨[], 4, 0, []⟩]⟩

/-! ## List-level view of the backward destroy pass

`destroy_entities_where`'s effect on one store's row list, abstracted
from the slot-table bookkeeping: `swap_remove` is the row-level effect of
`destroy_entity_at_arc` (move the last row into the hole unless the hole
is last, then pop), `dewL` is the `for (i = count - 1; i != 0; --i)`
loop, and `passL` adds the guarded row-`0` check. -/

/-- Swap-remove at index `i`: drop the last element after moving it into
index `i` (no move when `i` is the last index). -/
def swap_remove (d0 : ρ) (L : List ρ) (i : Nat) : List ρ :=
  if i = L.length - 1 then L.dropLast
  else (L.set i (L.getD (L.length - 1) d0)).dropLast

/-- The backward loop: `dewL d0 q i L` visits indices `i, i - 1, …, 1`,
swap-removing every index whose element satisfies `q`. -/
def dewL (d0 : ρ) (q : ρ → Bool) : Nat → List ρ → List ρ
  | 0, L => L
  | i + 1, L => dewL d0 q i (if q (L.getD (i + 1) d0) then swap_remove d0 L (i + 1) else L)

/-- The whole per-store pass: the backward loop from the last index, then
the guarded check of index `0`. -/
def passL (d0 : ρ) (q : ρ → Bool) (L : List ρ) : List ρ :=
  if 0 < L.length then
    if 0 < (dewL d0 q (L.length - 1) L).length then
      if q ((dewL d0 q (L.length - 1) L).getD 0 d0) then
        swap_remove d0 (dewL d0 q (L.length - 1) L) 0
      else dewL d0 q (L.length - 1) L
    else dewL d0 q (L.length - 1) L
  else L

/-- The spec-side result of one archetype's `destroy_entities_where`
pass: a matching store keeps its declared types and capacity and has its
rows replaced by the backward pass (count tracking the surviving rows); a
non-matching store is untouched. -/
def dew_arc_result (d : α) (sels : List Sel) (p : List (EntityHandle ⊕ α) → Bool)
    (a : Arc α) : Arc α :=
  if a.has_components sels then
    { tys := a.tys
      capacity := a.capacity
      count := (passL dfltRow (row_pred d sels p a.tys) a.rows).length
      rows := passL dfltRow (row_pred d sels p a.tys) a.rows }
  else a

/-! ## Helper lemmas -/

/-- `getD` at an in-range index reads the indexed element. -/
theorem getD_eq_get (L : List γ) (d0 : γ) {n : Nat} (h : n < L.length) :
    L.getD n d0 = L.get ⟨n, h⟩ := by
  rw [List.getD_eq_getElem L d0 h]
  rfl

/-- `getD` after `set` at the written index. -/
theorem getD_set_self (L : List γ) (k : Nat) (x d : γ) (hk : k < L.length) :
    (L.set k x).getD k d = x := by
  rw [List.getD_eq_getElem _ _ (by rw [List.length_set]; exact hk)]
  exact List.getElem_set_self _

/-- `getD` after `set` at another index. -/
theorem getD_set_ne (L : List γ) (k j : Nat) (x d : γ) (hjk : j ≠ k) :
    (L.set k x).getD j d = L.getD j d := by
  by_cases hj : j < L.length
  · rw [List.getD_eq_getElem _ _ (by rw [List.length_set]; exact hj),
      List.getElem_set_ne (fun h => hjk h.symm), List.getD_eq_getElem _ _ hj]
  · rw [List.getD_eq_default _ _ (by rw [List.length_set]; omega),
      List.getD_eq_default _ _ (by omega)]

/-- Reading a column of row `i` through the store's buffers agrees with
reading it from the stored row. -/
theorem get_sel_eq_sel_of_row (d : α) (a : Arc α) (t : Sel) (i : Nat) :
    a.get_sel d t i = sel_of_row d a.tys (a.rows.getD i dfltRow) t := by
  cases t <;> rfl

/-- Indexing a list by `0 … length - 1` and mapping is just mapping. -/
theorem range_length_map_getD (L : List γ) (d0 : γ) (g : γ → β) :
    (List.range L.length).map (fun i => g (L.getD i d0)) = L.map g := by
  induction L with
  | nil => rfl
  | cons x xs ih =>
      simp only [List.length_cons, List.range_succ_eq_map, List.map_cons,
        List.getD_cons_zero, List.map_map]
      refine congrArg (g x :: ·) ?_
      rw [← ih]
      rfl

/-- The store list after `destroy_entity_at_arc`: only the store at the
dispatched index changes, by swap-remove at the resolved row. -/
theorem destroy_entity_at_arc_stores (k : Nat) (e : EntityHandle) (ci : Nat) (s : Scene α) :
    (Scene.destroy_entity_at_arc k e ci s).stores =
      s.stores.set k
        (if ci ≠ (s.stores.getD k dfltArc).count - 1 then
          ((s.stores.getD k dfltArc).set_row ci (s.stores.getD k dfltArc).back).pop_back
        else (s.stores.getD k dfltArc).pop_back) := by
  unfold Scene.destroy_entity_at_arc
  by_cases h : ci ≠ (s.stores.getD k dfltArc).count - 1
  · simp only [if_pos h]
  · simp only [if_neg h]

/-- `destroy_entity` after a successful slot-table resolution. -/
theorem destroy_entity_of_find (s : Scene α) (e : EntityHandle) (ci : Nat)
    (hfind : s.find_component_index e = some ci) :
    s.destroy_entity e =
      if e.archetype_index < s.stores.length then
        Scene.destroy_entity_at_arc e.archetype_index e ci s
      else s := by
  unfold Scene.destroy_entity
  rw [hfind]

/-- The `for_each` trace over a store list, described row-wise: each
matching store contributes its stored rows in order. -/
theorem for_each_trace_eq (d : α) (sels : List Sel) :
    ∀ L : List (Arc α), (∀ a ∈ L, a.count = a.rows.length) →
      Scene.for_each_trace d sels L = L.flatMap fun a =>
        if a.has_components sels then a.rows.map fun r => sels.map (sel_of_row d a.tys r)
        else [] := by
  intro L
  induction L with
  | nil => intro _; rfl
  | cons a L ih =>
      intro hwf
      have ha : a.count = a.rows.length := hwf a (List.mem_cons_self a L)
      have hL : ∀ b ∈ L, b.count = b.rows.length := fun b hb =>
        hwf b (List.mem_cons_of_mem a hb)
      unfold Scene.for_each_trace
      rw [List.flatMap_cons, ih hL]
      refine congrArg (· ++ _) ?_
      by_cases hm : a.has_components sels
      · rw [if_pos hm, if_pos hm, ha]
        have hrow : (fun i => sels.map fun t => a.get_sel d t i) =
            fun i => (fun r => sels.map (sel_of_row d a.tys r)) (a.rows.getD i dfltRow) := by
          funext i
          exact List.map_congr_left fun t _ => get_sel_eq_sel_of_row d a t i
        rw [hrow]
        exact range_length_map_getD a.rows dfltRow fun r => sels.map (sel_of_row d a.tys r)
      · rw [if_neg hm, if_neg hm]

/-- A nonempty list is its defaulted head consed on its tail. -/
theorem getD_zero_cons_drop (d0 : ρ) (L : List ρ) (h : 0 < L.length) :
    L = L.getD 0 d0 :: L.drop 1 := by
  cases L with
  | nil => simp at h
  | cons x xs => rfl

/-- `swap_remove` one position to the right of a cons. -/
theorem swap_remove_cons (d0 : ρ) (x : ρ) (xs : List ρ) (j : Nat) (hj : j < xs.length) :
    swap_remove d0 (x :: xs) (j + 1) = x :: swap_remove d0 xs j := by
  have hne : xs ≠ [] := List.ne_nil_of_length_pos (Nat.lt_of_le_of_lt (Nat.zero_le j) hj)
  have hgd : (x :: xs).getD ((x :: xs).length - 1) d0 = xs.getD (xs.length - 1) d0 := by
    obtain ⟨y, ys, rfl⟩ := List.exists_cons_of_ne_nil hne
    simp only [List.length_cons, Nat.add_sub_cancel, List.getD_cons_succ]
  unfold swap_remove
  by_cases h : j + 1 = (x :: xs).length - 1
  · rw [if_pos h, if_pos (by simp only [List.length_cons, Nat.add_sub_cancel] at h ⊢; omega),
      List.dropLast_cons_of_ne_nil hne]
  · rw [if_neg h, if_neg (by simp only [List.length_cons, Nat.add_sub_cancel] at h ⊢; omega),
      hgd, List.set_cons_succ,
      List.dropLast_cons_of_ne_nil (List.ne_nil_of_length_pos (by simp [List.length_set]; omega))]

/-- `swap_remove` in range shortens the list by one. -/
theorem swap_remove_length (d0 : ρ) (L : List ρ) (i : Nat) :
    (swap_remove d0 L i).length = L.length - 1 := by
  unfold swap_remove
  by_cases h : i = L.length - 1
  · rw [if_pos h, List.length_dropLast]
  · rw [if_neg h, List.length_dropLast, List.length_set]

/-- `swap_remove` is removal of the indexed element, up to permutation. -/
theorem swap_remove_perm_eraseIdx (d0 : ρ) :
    ∀ (L : List ρ) (i : Nat), i < L.length →
      (swap_remove d0 L i).Perm (L.eraseIdx i) := by
  intro L
  induction L with
  | nil => intro i hi; simp at hi
  | cons x xs ih =>
      intro i hi
      cases i with
      | succ j =>
          have hj : j < xs.length := by simpa using hi
          rw [swap_remove_cons d0 x xs j hj, List.eraseIdx_cons_succ]
          exact (ih j hj).cons x
      | zero =>
          cases xs with
          | nil => simp [swap_remove]
          | cons y ys =>
              have hne : (y :: ys) ≠ [] := List.cons_ne_nil y ys
              have hgl : (x :: y :: ys).getD ((x :: y :: ys).length - 1) d0 =
                  (y :: ys).getLast hne := by
                rw [List.getLast_eq_getElem,
                  List.getD_eq_getElem _ _ (by simp)]
                simp only [List.length_cons, Nat.add_sub_cancel, List.getElem_cons_succ]
              unfold swap_remove
              rw [if_neg (by simp), hgl, List.set_cons_zero,
                List.dropLast_cons_of_ne_nil hne, List.eraseIdx_cons_zero]
              have h1 : ((y :: ys).dropLast ++ [(y :: ys).getLast hne]).Perm
                  ((y :: ys).getLast hne :: (y :: ys).dropLast) :=
                List.perm_append_singleton _ _
              have h2 : (y :: ys).dropLast ++ [(y :: ys).getLast hne] = y :: ys :=
                List.dropLast_append_getLast hne
              exact (h2 ▸ h1).symm

/-- Any list is, up to permutation, its `i`-th element consed on the rest. -/
theorem perm_getD_cons_eraseIdx (d0 : ρ) :
    ∀ (L : List ρ) (i : Nat), i < L.length →
      L.Perm (L.getD i d0 :: L.eraseIdx i) := by
  intro L
  induction L with
  | nil => intro i hi; simp at hi
  | cons x xs ih =>
      intro i hi
      cases i with
      | zero => simp
      | succ j =>
          have hj : j < xs.length := by simpa using hi
          rw [List.eraseIdx_cons_succ, List.getD_cons_succ]
          exact ((ih j hj).cons x).trans (List.Perm.swap _ _ _)

/-- Every element past index `i` of `swap_remove L (i + 1)` already sat
past index `i + 1` in `L`. -/
theorem mem_drop_swap_remove (d0 : ρ) (L : List ρ) (i : Nat) (hi : i + 1 < L.length)
    (r : ρ) (hr : r ∈ (swap_remove d0 L (i + 1)).drop (i + 1)) :
    r ∈ L.drop (i + 2) := by
  unfold swap_remove at hr
  by_cases h : i + 1 = L.length - 1
  · rw [if_pos h] at hr
    rw [List.drop_eq_nil_of_le (by rw [List.length_dropLast]; omega)] at hr
    simp at hr
  · rw [if_neg h] at hr
    set v := L.getD (L.length - 1) d0 with hv
    rw [List.dropLast_eq_take, List.length_set, List.drop_take] at hr
    have hr2 : r ∈ (L.set (i + 1) v).drop (i + 1) :=
      List.take_subset (L.length - 1 - (i + 1)) ((L.set (i + 1) v).drop (i + 1)) hr
    rw [List.drop_set, if_neg (by omega), Nat.sub_self,
      List.drop_eq_getElem_cons hi, List.set_cons_zero] at hr2
    rcases List.mem_cons.mp hr2 with hrv | hmem
    · subst hrv
      have hlt : L.length - 1 - (i + 2) < (L.drop (i + 2)).length := by
        rw [List.length_drop]; omega
      have heq : (L.drop (i + 2)).get ⟨L.length - 1 - (i + 2), hlt⟩ = v := by
        rw [hv, List.get_eq_getElem, List.getElem_drop,
          List.getD_eq_getElem _ _ (show L.length - 1 < L.length by omega)]
        congr 1
        show i + 2 + (L.length - 1 - (i + 2)) = L.length - 1
        omega
      rw [← heq]
      exact List.get_mem _ _ _
    · exact hmem

/-- `swap_remove` away from index `0` keeps the head. -/
theorem swap_remove_getD_zero (d0 : ρ) (L : List ρ) (i : Nat) (h0 : 0 < i)
    (hi : i < L.length) :
    (swap_remove d0 L i).getD 0 d0 = L.getD 0 d0 := by
  have hlen : 0 < (swap_remove d0 L i).length := by rw [swap_remove_length]; omega
  unfold swap_remove at hlen ⊢
  by_cases h : i = L.length - 1
  · rw [if_pos h] at hlen ⊢
    rw [List.getD_eq_getElem _ _ hlen, List.getElem_dropLast,
      List.getD_eq_getElem _ _ (by rw [List.length_dropLast] at hlen; omega)]
  · rw [if_neg h] at hlen ⊢
    rw [List.getD_eq_getElem _ _ hlen, List.getElem_dropLast,
      List.getElem_set_ne (by omega)]
    exact (List.getD_eq_getElem L d0
      (by rw [List.length_dropLast, List.length_set] at hlen; omega)).symm

/-- The two filters of a Boolean predicate partition a list's length. -/
theorem length_filter_not_add (q : ρ → Bool) (L : List ρ) :
    (L.filter fun r => !q r).length + (L.filter q).length = L.length := by
  induction L with
  | nil => rfl
  | cons x xs ih =>
      cases hx : q x
      · simp [List.filter_cons, hx]
        omega
      · simp [List.filter_cons, hx]
        omega

/-- Behaviour of the backward loop when every element past the current
index fails the predicate: up to permutation the loop keeps the head and
exactly the non-matching elements of the tail, and the head itself is
never moved. -/
theorem dewL_perm (d0 : ρ) (q : ρ → Bool) :
    ∀ (i : Nat) (L : List ρ), i < L.length →
      (∀ r ∈ L.drop (i + 1), q r = false) →
      (dewL d0 q i L).Perm (L.getD 0 d0 :: (L.drop 1).filter fun r => !q r) ∧
      (dewL d0 q i L).getD 0 d0 = L.getD 0 d0 := by
  intro i
  induction i with
  | zero =>
      intro L hi hall
      refine ⟨?_, rfl⟩
      have hfe : (L.drop 1).filter (fun r => !q r) = L.drop 1 :=
        List.filter_eq_self.mpr fun r hr => by simp [hall r hr]
      show L.Perm _
      rw [hfe]
      exact (getD_zero_cons_drop d0 L hi) ▸ List.Perm.refl L
  | succ i ih =>
      intro L hi hall
      have hstep : dewL d0 q (i + 1) L =
          dewL d0 q i (if q (L.getD (i + 1) d0) then swap_remove d0 L (i + 1) else L) := rfl
      by_cases hq : q (L.getD (i + 1) d0)
      · rw [hstep, if_pos hq]
        have hlen1 : (swap_remove d0 L (i + 1)).length = L.length - 1 :=
          swap_remove_length d0 L (i + 1)
        have hi1 : i < (swap_remove d0 L (i + 1)).length := by rw [hlen1]; omega
        have hall1 : ∀ r ∈ (swap_remove d0 L (i + 1)).drop (i + 1), q r = false :=
          fun r hr => hall r (mem_drop_swap_remove d0 L i hi r hr)
        obtain ⟨hperm1, hhead1⟩ := ih (swap_remove d0 L (i + 1)) hi1 hall1
        have hhead : (swap_remove d0 L (i + 1)).getD 0 d0 = L.getD 0 d0 :=
          swap_remove_getD_zero d0 L (i + 1) (Nat.succ_pos i) hi
        -- the filtered tails agree up to permutation
        cases L with
        | nil => simp at hi
        | cons x xs =>
            have hxs : i < xs.length := by simpa using hi
            have hqx : q (xs.getD i d0) = true := by
              rw [List.getD_cons_succ] at hq; exact hq
            have hswe : (swap_remove d0 (x :: xs) (i + 1)).Perm (x :: xs.eraseIdx i) := by
              have := swap_remove_perm_eraseIdx d0 (x :: xs) (i + 1) (by simpa using hi)
              rwa [List.eraseIdx_cons_succ] at this
            have hpos1 : 0 < (swap_remove d0 (x :: xs) (i + 1)).length := by
              rw [hlen1]; simp only [List.length_cons]; omega
            have hswcons : swap_remove d0 (x :: xs) (i + 1) =
                x :: (swap_remove d0 (x :: xs) (i + 1)).drop 1 := by
              have := getD_zero_cons_drop d0 (swap_remove d0 (x :: xs) (i + 1)) hpos1
              rwa [hhead, List.getD_cons_zero] at this
            have hdropperm : ((swap_remove d0 (x :: xs) (i + 1)).drop 1).Perm (xs.eraseIdx i) := by
              have h2 := hswe
              rw [hswcons] at h2
              exact h2.cons_inv
            have hfiltp : ((xs.eraseIdx i).filter fun r => !q r).Perm
                (xs.filter fun r => !q r) := by
              have hp := (perm_getD_cons_eraseIdx d0 xs i hxs).filter fun r => !q r
              rw [List.filter_cons, if_neg (by rw [hqx]; decide)] at hp
              exact hp.symm
            have htails : (((swap_remove d0 (x :: xs) (i + 1)).drop 1).filter
                fun r => !q r).Perm ((x :: xs).drop 1 |>.filter fun r => !q r) :=
              (hdropperm.filter _).trans hfiltp
            exact ⟨hperm1.trans (by
                rw [hhead]
                exact List.Perm.cons _ htails), hhead1.trans hhead⟩
      · rw [hstep, if_neg hq]
        have hq' : q (L.getD (i + 1) d0) = false := by simpa using hq
        have hall' : ∀ r ∈ L.drop (i + 1), q r = false := by
          rw [List.drop_eq_getElem_cons hi]
          intro r hr
          rcases List.mem_cons.mp hr with hr0 | hrm
          · rw [hr0, ← List.getD_eq_getElem L d0 hi]
            exact hq'
          · exact hall r hrm
        exact ih L (by omega) hall'

/-- The whole backward pass removes, up to permutation, exactly the
elements satisfying the predicate. -/
theorem passL_perm (d0 : ρ) (q : ρ → Bool) (L : List ρ) :
    (passL d0 q L).Perm (L.filter fun r => !q r) := by
  cases L with
  | nil => simp [passL]
  | cons x xs =>
      unfold passL
      rw [if_pos (by simp)]
      obtain ⟨hperm, hhead⟩ := dewL_perm d0 q ((x :: xs).length - 1) (x :: xs)
        (by simp) (fun r hr => by
          rw [List.drop_eq_nil_of_le (by simp)] at hr
          simp at hr)
      set L1 := dewL d0 q ((x :: xs).length - 1) (x :: xs) with hL1def
      rw [List.getD_cons_zero] at hperm hhead
      have hdrop1 : (x :: xs).drop 1 = xs := rfl
      rw [hdrop1] at hperm
      have hlen1 : 0 < L1.length := by
        rw [hperm.length_eq]
        simp
      rw [if_pos hlen1]
      have hL1cons : L1 = x :: L1.drop 1 := by
        have := getD_zero_cons_drop d0 L1 hlen1
        rwa [hhead] at this
      have hdropperm : (L1.drop 1).Perm (xs.filter fun r => !q r) := by
        have h2 := hperm
        rw [hL1cons] at h2
        exact h2.cons_inv
      by_cases hq : q (L1.getD 0 d0)
      · rw [if_pos hq]
        have hqx : q x = true := by rw [hhead] at hq; exact hq
        have hsw : (swap_remove d0 L1 0).Perm (L1.eraseIdx 0) :=
          swap_remove_perm_eraseIdx d0 L1 0 hlen1
        have hL1e : L1.eraseIdx 0 = L1.drop 1 := by
          rw [List.eraseIdx_eq_take_drop_succ]
          rfl
        rw [List.filter_cons, if_neg (by rw [hqx]; decide)]
        exact (hsw.trans (hL1e ▸ List.Perm.refl _)).trans hdropperm
      · rw [if_neg hq]
        have hqx : q x = false := by
          rw [hhead] at hq
          simpa using hq
        rw [List.filter_cons, if_pos (by rw [hqx]; decide)]
        exact hperm

/-- Field-level effect of `destroy_entity_at_arc` on the store list: the
dispatched store's rows undergo `swap_remove` at the resolved row (the
count tracking them); nothing else in the store list changes. -/
theorem destroy_entity_at_arc_fields (k : Nat) (e : EntityHandle) (ci : Nat) (s : Scene α)
    (hcnt : (s.stores.getD k dfltArc).count = (s.stores.getD k dfltArc).rows.length) :
    (Scene.destroy_entity_at_arc k e ci s).stores =
      s.stores.set k
        { tys := (s.stores.getD k dfltArc).tys
          capacity := (s.stores.getD k dfltArc).capacity
          count := (swap_remove dfltRow (s.stores.getD k dfltArc).rows ci).length
          rows := swap_remove dfltRow (s.stores.getD k dfltArc).rows ci } := by
  rw [destroy_entity_at_arc_stores]
  set a := s.stores.getD k dfltArc with ha
  congr 1
  rw [swap_remove_length]
  by_cases h : ci = a.rows.length - 1
  · rw [if_neg (show ¬ ci ≠ a.count - 1 by rw [hcnt]; omega)]
    unfold Arc.pop_back swap_remove
    rw [if_pos h, hcnt]
  · rw [if_pos (show ci ≠ a.count - 1 by rw [hcnt]; omega)]
    unfold Arc.set_row Arc.pop_back Arc.back swap_remove
    rw [if_neg h, hcnt]

/-- Field-level effect of one `destroy_entities_where` loop iteration:
when the current row matches the predicate it is swap-removed from the
store at index `k`, otherwise the store list is untouched. -/
theorem dew_visit_fields (d : α) (sels : List Sel) (p : List (EntityHandle ⊕ α) → Bool)
    (k i : Nat) (s : Scene α)
    (hcnt : (s.stores.getD k dfltArc).count = (s.stores.getD k dfltArc).rows.length) :
    (Scene.dew_visit d sels p k i s).stores =
      if row_pred d sels p (s.stores.getD k dfltArc).tys
          ((s.stores.getD k dfltArc).rows.getD i dfltRow) then
        s.stores.set k
          { tys := (s.stores.getD k dfltArc).tys
            capacity := (s.stores.getD k dfltArc).capacity
            count := (swap_remove dfltRow (s.stores.getD k dfltArc).rows i).length
            rows := swap_remove dfltRow (s.stores.getD k dfltArc).rows i }
      else s.stores := by
  have hcond : p (sels.map fun t => (s.stores.getD k dfltArc).get_sel d t i) =
      row_pred d sels p (s.stores.getD k dfltArc).tys
        ((s.stores.getD k dfltArc).rows.getD i dfltRow) := rfl
  rw [show (Scene.dew_visit d sels p k i s).stores =
      (if p (sels.map fun t => (s.stores.getD k dfltArc).get_sel d t i) then
        Scene.destroy_entity_at_arc k
          ((s.stores.getD k dfltArc).rows.getD i dfltRow).handle i s
      else s).stores from rfl]
  rw [hcond]
  by_cases hq : row_pred d sels p (s.stores.getD k dfltArc).tys
      ((s.stores.getD k dfltArc).rows.getD i dfltRow)
  · rw [if_pos hq, if_pos hq, destroy_entity_at_arc_fields _ _ _ _ hcnt]
  · rw [if_neg hq, if_neg hq]

/-- Field-level effect of the backward loop of `destroy_entities_where`:
the store at index `k` ends with rows `dewL … i rows`; other stores are
untouched. -/
theorem dew_loop_fields (d : α) (sels : List Sel) (p : List (EntityHandle ⊕ α) → Bool)
    (k : Nat) : ∀ (i : Nat) (s : Scene α),
    (s.stores.getD k dfltArc).count = (s.stores.getD k dfltArc).rows.length →
    i < (s.stores.getD k dfltArc).rows.length →
    (Scene.dew_loop d sels p k i s).stores.length = s.stores.length ∧
    (Scene.dew_loop d sels p k i s).stores.getD k dfltArc =
      { tys := (s.stores.getD k dfltArc).tys
        capacity := (s.stores.getD k dfltArc).capacity
        count := (dewL dfltRow (row_pred d sels p (s.stores.getD k dfltArc).tys) i
          (s.stores.getD k dfltArc).rows).length
        rows := dewL dfltRow (row_pred d sels p (s.stores.getD k dfltArc).tys) i
          (s.stores.getD k dfltArc).rows } ∧
    (∀ j, j ≠ k → (Scene.dew_loop d sels p k i s).stores.getD j dfltArc =
      s.stores.getD j dfltArc) := by
  intro i
  induction i with
  | zero =>
      intro s hcnt _hi
      refine ⟨rfl, ?_, fun j _ => rfl⟩
      show s.stores.getD k dfltArc =
        ⟨(s.stores.getD k dfltArc).tys, (s.stores.getD k dfltArc).capacity,
          (s.stores.getD k dfltArc).rows.length, (s.stores.getD k dfltArc).rows⟩
      rw [← hcnt]
  | succ i ih =>
      intro s hcnt hi
      have hk : k < s.stores.length := by
        by_contra hk
        rw [List.getD_eq_default _ _ (by omega)] at hi
        simp [dfltArc] at hi
      have hvf := dew_visit_fields d sels p k (i + 1) s hcnt
      have hstep : Scene.dew_loop d sels p k (i + 1) s =
          Scene.dew_loop d sels p k i (Scene.dew_visit d sels p k (i + 1) s) := rfl
      rw [hstep]
      set a := s.stores.getD k dfltArc with ha
      set s1 := Scene.dew_visit d sels p k (i + 1) s with hs1
      have hdew : dewL dfltRow (row_pred d sels p a.tys) (i + 1) a.rows =
          dewL dfltRow (row_pred d sels p a.tys) i
            (if row_pred d sels p a.tys (a.rows.getD (i + 1) dfltRow) then
              swap_remove dfltRow a.rows (i + 1)
            else a.rows) := rfl
      by_cases hq : row_pred d sels p a.tys (a.rows.getD (i + 1) dfltRow)
      · rw [if_pos hq] at hvf
        have hgk : s1.stores.getD k dfltArc =
            ⟨a.tys, a.capacity, (swap_remove dfltRow a.rows (i + 1)).length,
              swap_remove dfltRow a.rows (i + 1)⟩ := by
          rw [hvf]
          exact getD_set_self _ _ _ _ hk
        have hlen : s1.stores.length = s.stores.length := by
          rw [hvf, List.length_set]
        have hcnt1 : (s1.stores.getD k dfltArc).count =
            (s1.stores.getD k dfltArc).rows.length := by rw [hgk]
        have hi1 : i < (s1.stores.getD k dfltArc).rows.length := by
          rw [hgk]
          show i < (swap_remove dfltRow a.rows (i + 1)).length
          rw [swap_remove_length]
          omega
        obtain ⟨ih1, ih2, ih3⟩ := ih s1 hcnt1 hi1
        refine ⟨by rw [ih1, hlen], ?_, ?_⟩
        · rw [ih2, hgk, hdew, if_pos hq]
        · intro j hj
          rw [ih3 j hj, hvf, getD_set_ne _ _ _ _ _ hj]
      · rw [if_neg hq] at hvf
        have hgk : s1.stores.getD k dfltArc = a := by rw [hvf]
        have hlen : s1.stores.length = s.stores.length := by rw [hvf]
        have hcnt1 : (s1.stores.getD k dfltArc).count =
            (s1.stores.getD k dfltArc).rows.length := by rw [hgk]; exact hcnt
        have hi1 : i < (s1.stores.getD k dfltArc).rows.length := by
          rw [hgk]
          omega
        obtain ⟨ih1, ih2, ih3⟩ := ih s1 hcnt1 hi1
        refine ⟨by rw [ih1, hlen], ?_, ?_⟩
        · rw [ih2, hgk, hdew, if_neg hq]
        · intro j hj
          rw [ih3 j hj, hvf]

/-- Field-level effect of one archetype's `destroy_entities_where` pass:
the store at index `k` becomes `dew_arc_result` of itself; other stores
are untouched. -/
theorem dew_arc_fields (d : α) (sels : List Sel) (p : List (EntityHandle ⊕ α) → Bool)
    (k : Nat) (s : Scene α)
    (hcnt : (s.stores.getD k dfltArc).count = (s.stores.getD k dfltArc).rows.length) :
    (Scene.dew_arc d sels p k s).stores.length = s.stores.length ∧
    (Scene.dew_arc d sels p k s).stores.getD k dfltArc =
      dew_arc_result d sels p (s.stores.getD k dfltArc) ∧
    (∀ j, j ≠ k → (Scene.dew_arc d sels p k s).stores.getD j dfltArc =
      s.stores.getD j dfltArc) := by
  set a := s.stores.getD k dfltArc with ha
  have hbody : Scene.dew_arc d sels p k s =
      (if a.has_components sels then
        if 0 < a.count then
          (if 0 < ((Scene.dew_loop d sels p k (a.count - 1) s).stores.getD k dfltArc).count
            then Scene.dew_visit d sels p k 0 (Scene.dew_loop d sels p k (a.count - 1) s)
          else Scene.dew_loop d sels p k (a.count - 1) s)
        else s
      else s) := rfl
  rw [hbody]
  unfold dew_arc_result passL
  by_cases hm : a.has_components sels
  · rw [if_pos hm, if_pos hm, hcnt]
    by_cases hc : 0 < a.rows.length
    · rw [if_pos hc, if_pos hc]
      have hk : k < s.stores.length := by
        by_contra hk
        rw [ha, List.getD_eq_default _ _ (by omega)] at hc
        simp [dfltArc] at hc
      have hi : a.rows.length - 1 < a.rows.length := by omega
      obtain ⟨l1, l2, l3⟩ := dew_loop_fields d sels p k (a.rows.length - 1) s hcnt hi
      set s1 := Scene.dew_loop d sels p k (a.rows.length - 1) s with hs1
      set L1 := dewL dfltRow (row_pred d sels p a.tys) (a.rows.length - 1) a.rows with hL1
      have hz2 : (s1.stores.getD k dfltArc).count = L1.length := by rw [l2]
      rw [hz2]
      by_cases hz : 0 < L1.length
      · rw [if_pos hz, if_pos hz]
        have hcnt1 : (s1.stores.getD k dfltArc).count =
            (s1.stores.getD k dfltArc).rows.length := by rw [l2]
        have hvf := dew_visit_fields d sels p k 0 s1 hcnt1
        rw [l2] at hvf
        have hk1 : k < s1.stores.length := by rw [l1]; exact hk
        by_cases hq0 : row_pred d sels p a.tys (L1.getD 0 dfltRow)
        · rw [if_pos hq0] at hvf
          rw [if_pos hq0]
          refine ⟨?_, ?_, ?_⟩
          · rw [hvf, List.length_set, l1]
          · rw [hvf, getD_set_self _ _ _ _ hk1]
          · intro j hj
            rw [hvf, getD_set_ne _ _ _ _ _ hj, l3 j hj]
        · rw [if_neg hq0] at hvf
          rw [if_neg hq0]
          refine ⟨?_, ?_, ?_⟩
          · rw [hvf, l1]
          · rw [hvf, l2]
          · intro j hj
            rw [hvf, l3 j hj]
      · rw [if_neg hz, if_neg hz]
        exact ⟨l1, l2, l3⟩
    · rw [if_neg hc, if_neg hc]
      refine ⟨rfl, ?_, fun j _ => rfl⟩
      show a = ⟨a.tys, a.capacity, a.rows.length, a.rows⟩
      rw [← hcnt]
  · rw [if_neg hm, if_neg hm]
    exact ⟨rfl, rfl, fun j _ => rfl⟩

/-- Whole-scene effect of the archetype recursion of
`destroy_entities_where` over a duplicate-free index list: each listed
store becomes `dew_arc_result` of itself, unlisted stores are untouched. -/
theorem dew_fold_fields (d : α) (sels : List Sel) (p : List (EntityHandle ⊕ α) → Bool) :
    ∀ (ks : List Nat) (s : Scene α), ks.Nodup →
      (∀ m, (s.stores.getD m dfltArc).count = (s.stores.getD m dfltArc).rows.length) →
      (ks.foldl (fun s k => Scene.dew_arc d sels p k s) s).stores.length =
        s.stores.length ∧
      (∀ k, k ∉ ks →
        (ks.foldl (fun s k => Scene.dew_arc d sels p k s) s).stores.getD k dfltArc =
          s.stores.getD k dfltArc) ∧
      (∀ k ∈ ks,
        (ks.foldl (fun s k => Scene.dew_arc d sels p k s) s).stores.getD k dfltArc =
          dew_arc_result d sels p (s.stores.getD k dfltArc)) := by
  intro ks
  induction ks with
  | nil =>
      intro s _ _
      exact ⟨rfl, fun k _ => rfl, fun k hk => absurd hk (List.not_mem_nil k)⟩
  | cons j ks ih =>
      intro s hnd hwfd
      obtain ⟨hj, hnd'⟩ := List.nodup_cons.mp hnd
      obtain ⟨a1, a2, a3⟩ := dew_arc_fields d sels p j s (hwfd j)
      set s1 := Scene.dew_arc d sels p j s with hs1
      have hwfd1 : ∀ m, (s1.stores.getD m dfltArc).count =
          (s1.stores.getD m dfltArc).rows.length := by
        intro m
        by_cases hm : m = j
        · subst hm
          rw [a2]
          unfold dew_arc_result
          by_cases hcm : (s.stores.getD m dfltArc).has_components sels
          · rw [if_pos hcm]
          · rw [if_neg hcm]
            exact hwfd m
        · rw [a3 m hm]
          exact hwfd m
      obtain ⟨F1, F2, F3⟩ := ih s1 hnd' hwfd1
      have hfold : (j :: ks).foldl (fun s k => Scene.dew_arc d sels p k s) s =
          ks.foldl (fun s k => Scene.dew_arc d sels p k s) s1 := rfl
      rw [hfold]
      refine ⟨F1.trans a1, ?_, ?_⟩
      · intro k hk
        have hkj : k ≠ j := fun h => hk (h ▸ List.mem_cons_self j ks)
        have hkks : k ∉ ks := fun h => hk (List.mem_cons_of_mem j h)
        rw [F2 k hkks, a3 k hkj]
      · intro k hk
        rcases List.mem_cons.mp hk with hkj | hkks
        · subst hkj
          rw [F2 k hj, a2]
        · have hkj : k ≠ j := fun h => hj (h ▸ hkks)
          rw [F3 k hkks, a3 k hkj]

/-- The slot-table index of a handle whose id has nonzero low 32 bits. -/
theorem slot_hash_of_lowbits (e : EntityHandle) (h1 : 1 ≤ e.id % 2 ^ 32) :
    Scene.slot_hash e = e.id % 2 ^ 32 - 1 := by
  unfold Scene.slot_hash
  have hlt : e.id % 2 ^ 32 < 2 ^ 32 := Nat.mod_lt _ (by norm_num)
  rw [show e.id % 2 ^ 32 + (2 ^ 64 - 1) = e.id % 2 ^ 32 - 1 + 2 ^ 64 by omega,
    Nat.add_mod_right]
  exact Nat.mod_eq_of_lt (by omega)

/-- `getD` of a one-element append, at the old length. -/
theorem getD_append_length (L : List γ) (x d : γ) :
    (L ++ [x]).getD L.length d = x := by
  rw [List.getD_eq_getElem _ _ (by simp)]
  exact List.getElem_concat_length L x L.length rfl _

/-- `create_entity` with an empty recycle stack mints the fresh id
`table length + 1` and appends the new slot. -/
theorem create_entity_fresh (d : α) (k : Nat) (s : Scene α)
    (h : s.recycled_ids = []) :
    s.create_entity d k =
      (⟨s.id_index_pairs ++
          [(s.id_index_pairs.length + 1, ((s.stores.getD k dfltArc).emplace_back d).count - 1)],
        [],
        s.stores.set k (((s.stores.getD k dfltArc).emplace_back d).set_last_handle
          ⟨k, s.id_index_pairs.length + 1⟩)⟩,
       ⟨k, s.id_index_pairs.length + 1⟩) := by
  unfold Scene.create_entity
  rw [h]

/-- `create_entity` with a non-empty recycle stack pops the top id and
rebinds its slot. -/
theorem create_entity_recycled (d : α) (k : Nat) (s : Scene α) (id : Nat)
    (rest : List Nat) (h : s.recycled_ids = id :: rest) :
    s.create_entity d k =
      (⟨s.id_index_pairs.set ((id % 2 ^ 32 + (2 ^ 64 - 1)) % 2 ^ 64)
          (id, ((s.stores.getD k dfltArc).emplace_back d).count - 1),
        rest,
        s.stores.set k (((s.stores.getD k dfltArc).emplace_back d).set_last_handle ⟨k, id⟩)⟩,
       ⟨k, id⟩) := by
  unfold Scene.create_entity
  rw [h]

/-- `destroy_entity_at_arc` when the resolved row is the store's last:
no swap, just pop, free the slot and push the bumped id. -/
theorem destroy_at_arc_no_swap (k : Nat) (e : EntityHandle) (ci : Nat) (s : Scene α)
    (hci : ci = (s.stores.getD k dfltArc).count - 1) :
    Scene.destroy_entity_at_arc k e ci s =
      ⟨s.id_index_pairs.set (Scene.slot_hash e)
          (0, (s.id_index_pairs.getD (Scene.slot_hash e) (0, 0)).2),
        (e.id + 2 ^ 32) % 2 ^ 64 :: s.recycled_ids,
        s.stores.set k ((s.stores.getD k dfltArc).pop_back)⟩ := by
  unfold Scene.destroy_entity_at_arc
  dsimp only
  rw [if_neg (by omega)]

/-- `run` on a `create` call. -/
theorem run_cons_create (d : α) (k : Nat) (rest : List Op) (s : Scene α) :
    Scene.run d (Op.create k :: rest) s =
      ((Scene.run d rest (s.create_entity d k).1).1,
        (s.create_entity d k).2.id :: (Scene.run d rest (s.create_entity d k).1).2) := rfl

/-- `run` on a `destroy` call. -/
theorem run_cons_destroy (d : α) (e : EntityHandle) (rest : List Op) (s : Scene α) :
    Scene.run d (Op.destroy e :: rest) s = Scene.run d rest (s.destroy_entity e) := rfl

/-- `destroy_entity_at_arc` pushes the generation-bumped id. -/
theorem destroy_at_arc_recycled (k : Nat) (e : EntityHandle) (ci : Nat) (s : Scene α) :
    (Scene.destroy_entity_at_arc k e ci s).recycled_ids =
      (e.id + 2 ^ 32) % 2 ^ 64 :: s.recycled_ids := by
  unfold Scene.destroy_entity_at_arc
  dsimp only

/-- `destroy_entity_at_arc` preserves the slot-table length. -/
theorem destroy_at_arc_pairs_length (k : Nat) (e : EntityHandle) (ci : Nat) (s : Scene α) :
    (Scene.destroy_entity_at_arc k e ci s).id_index_pairs.length =
      s.id_index_pairs.length := by
  unfold Scene.destroy_entity_at_arc
  dsimp only
  by_cases h : ci ≠ (s.stores.getD k dfltArc).count - 1
  · rw [if_pos h]
    simp [List.length_set]
  · rw [if_neg h]
    simp [List.length_set]

/-- The id column of a slot-table entry is unchanged by the row-rewrite
of the moved entity (`pair.second = component_index` keeps `first`). -/
theorem getD_fst_set_row (L : List (Nat × Nat)) (i x j : Nat) :
    ((L.set i ((L.getD i (0, 0)).1, x)).getD j (0, 0)).1 = (L.getD j (0, 0)).1 := by
  by_cases hji : j = i
  · subst hji
    by_cases hin : j < L.length
    · rw [getD_set_self _ _ _ _ hin]
    · have h1 : (L.set j ((L.getD j (0, 0)).1, x)).getD j (0, 0) = (0, 0) :=
        List.getD_eq_default _ _ (by rw [List.length_set]; omega)
      have h2 : L.getD j (0, 0) = (0, 0) := List.getD_eq_default _ _ (by omega)
      rw [h1, h2]
  · rw [getD_set_ne _ _ _ _ _ hji]

/-- The id column of the slot table after `pair.first = 0` at index `i`. -/
theorem getD_fst_set_zero (L : List (Nat × Nat)) (i x j : Nat) :
    ((L.set i (0, x)).getD j (0, 0)).1 =
      if j = i ∧ j < L.length then 0 else (L.getD j (0, 0)).1 := by
  by_cases hji : j = i
  · subst hji
    by_cases hin : j < L.length
    · rw [getD_set_self _ _ _ _ hin, if_pos ⟨rfl, hin⟩]
    · have h1 : (L.set j (0, x)).getD j (0, 0) = (0, 0) :=
        List.getD_eq_default _ _ (by rw [List.length_set]; omega)
      have h2 : L.getD j (0, 0) = (0, 0) := List.getD_eq_default _ _ (by omega)
      rw [h1, h2, if_neg (fun hc => hin hc.2)]
  · rw [getD_set_ne _ _ _ _ _ hji, if_neg (fun hc => hji hc.1)]

/-- The id column of the slot table after `destroy_entity_at_arc`: the
destroyed handle's (in-range) slot is zeroed; every other entry's id is
untouched (the swap branch rewrites only the moved entity's row field). -/
theorem destroy_at_arc_pairs_fst (k : Nat) (e : EntityHandle) (ci : Nat) (s : Scene α)
    (j : Nat) :
    ((Scene.destroy_entity_at_arc k e ci s).id_index_pairs.getD j (0, 0)).1 =
      if j = Scene.slot_hash e ∧ j < s.id_index_pairs.length then 0
      else (s.id_index_pairs.getD j (0, 0)).1 := by
  unfold Scene.destroy_entity_at_arc
  dsimp only
  by_cases h : ci ≠ (s.stores.getD k dfltArc).count - 1
  · rw [if_pos h]
    dsimp only
    rw [getD_fst_set_zero, getD_fst_set_row, List.length_set]
  · rw [if_neg h]
    dsimp only
    rw [getD_fst_set_zero]

/-- The invariant is monotone in the budget. -/
theorem IdInv_mono (s : Scene α) (issued : List Nat) (b b' : Nat)
    (hb : b ≤ b') (h : IdInv s issued b) : IdInv s issued b' := by
  obtain ⟨I1, I2, I3, I4, I5, I6, I7⟩ := h
  refine ⟨by omega, ?_, ?_, ?_, I5, I6, I7⟩
  · intro j hj
    rcases I2 j hj with h0 | ⟨g, hg, hgv⟩
    · exact Or.inl h0
    · exact Or.inr ⟨g, by omega, hgv⟩
  · intro r hr
    obtain ⟨j, hj, g, hg1, hg2, hgv⟩ := I3 r hr
    exact ⟨j, hj, g, hg1, by omega, hgv⟩
  · intro i hi
    obtain ⟨j, hj, g, hg, hgv⟩ := I4 i hi
    exact ⟨j, hj, g, by omega, hgv⟩

/-- `getD` of an append, inside the left part. -/
theorem getD_append_left (L M : List γ) (j : Nat) (d : γ) (h : j < L.length) :
    (L ++ M).getD j d = L.getD j d := by
  rw [List.getD_eq_getElem _ _ (by rw [List.length_append]; omega),
    List.getElem_append_left, List.getD_eq_getElem _ _ h]

/-- `destroy_entity` of an unresolvable handle is the identity. -/
theorem destroy_entity_none (s : Scene α) (e : EntityHandle)
    (hfind : s.find_component_index e = none) : s.destroy_entity e = s := by
  unfold Scene.destroy_entity
  rw [hfind]

/-- A fresh `create_entity` (empty recycle stack) preserves the identity
invariant and issues an id distinct from every id issued before. -/
theorem create_fresh_inv (d : α) (k : Nat) (s : Scene α) (issued : List Nat) (b : Nat)
    (hinv : IdInv s issued b) (hcase : s.recycled_ids = []) (hb : b + 1 < 2 ^ 32) :
    IdInv (s.create_entity d k).1 (issued ++ [(s.create_entity d k).2.id]) (b + 1) ∧
    (∀ i ∈ issued, i ≠ (s.create_entity d k).2.id) := by
  obtain ⟨I1, I2, I3, I4, I5, I6, I7⟩ := hinv
  rw [create_entity_fresh d k s hcase]
  dsimp only
  have hn32 : s.id_index_pairs.length + 1 < 2 ^ 32 := by omega
  have hgetn : (s.id_index_pairs ++
      [(s.id_index_pairs.length + 1, ((s.stores.getD k dfltArc).emplace_back d).count - 1)]
      ).getD s.id_index_pairs.length (0, 0) =
      (s.id_index_pairs.length + 1,
        ((s.stores.getD k dfltArc).emplace_back d).count - 1) := getD_append_length _ _ _
  constructor
  · refine ⟨?_, ?_, ?_, ?_, ?_, ?_, ?_⟩
    · rw [List.length_append]
      simp only [List.length_cons, List.length_nil]
      omega
    · intro j hj
      rw [List.length_append] at hj
      simp only [List.length_cons, List.length_nil] at hj
      by_cases hjn : j < s.id_index_pairs.length
      · rw [getD_append_left _ _ _ _ hjn]
        rcases I2 j hjn with h0 | ⟨g, hg, hv⟩
        · exact Or.inl h0
        · exact Or.inr ⟨g, by omega, hv⟩
      · have hjeq : j = s.id_index_pairs.length := by omega
        subst hjeq
        rw [hgetn]
        exact Or.inr ⟨0, by omega, by omega⟩
    · intro r hr
      simp at hr
    · intro i hi
      rcases List.mem_append.mp hi with hio | hin
      · obtain ⟨j, hj, g, hg, hv⟩ := I4 i hio
        refine ⟨j, ?_, g, by omega, hv⟩
        simp only [List.length_append, List.length_cons, List.length_nil]
        omega
      · simp only [List.mem_singleton] at hin
        subst hin
        refine ⟨s.id_index_pairs.length, ?_, 0, by omega, by omega⟩
        simp only [List.length_append, List.length_cons, List.length_nil]
        omega
    · intro j hj
      simp only [List.filter_nil, List.length_nil, Nat.zero_add]
      split <;> omega
    · intro i hi j hj hmod hne
      rw [List.length_append] at hj
      simp only [List.length_cons, List.length_nil] at hj
      rcases List.mem_append.mp hi with hio | hin
      · obtain ⟨j', hj', g, hg, hv⟩ := I4 i hio
        have hj1 : j' + 1 < 2 ^ 32 := by omega
        have hmod' : i % 2 ^ 32 = j' + 1 := by omega
        have hjj : j = j' := by omega
        subst hjj
        rw [getD_append_left _ _ _ _ hj'] at hne ⊢
        exact I6 i hio j hj' hmod hne
      · simp only [List.mem_singleton] at hin
        subst hin
        have hmod' : (s.id_index_pairs.length + 1) % 2 ^ 32 =
            s.id_index_pairs.length + 1 := by omega
        have hjj : j = s.id_index_pairs.length := by omega
        subst hjj
        rw [hgetn]
    · intro i hi r hr
      simp at hr
  · intro i hi
    obtain ⟨j, hj, g, hg, hv⟩ := I4 i hi
    have hj1 : j + 1 < 2 ^ 32 := by omega
    omega

/-- A recycling `create_entity` (non-empty stack) preserves the identity
invariant and issues an id distinct from every id issued before. -/
theorem create_recycled_inv (d : α) (k : Nat) (s : Scene α) (issued : List Nat) (b : Nat)
    (r : Nat) (rest : List Nat)
    (hinv : IdInv s issued b) (hcase : s.recycled_ids = r :: rest) (hb : b + 1 < 2 ^ 32) :
    IdInv (s.create_entity d k).1 (issued ++ [(s.create_entity d k).2.id]) (b + 1) ∧
    (∀ i ∈ issued, i ≠ (s.create_entity d k).2.id) := by
  obtain ⟨I1, I2, I3, I4, I5, I6, I7⟩ := hinv
  obtain ⟨j0, hj0, g0, hg01, hg0b, hr⟩ :=
    I3 r (by rw [hcase]; exact List.mem_cons_self r rest)
  have hj032 : j0 + 1 < 2 ^ 32 := by omega
  have hrmod : r % 2 ^ 32 = j0 + 1 := by omega
  have hrne : ¬ r = 0 := by omega
  have hidx : (r % 2 ^ 32 + (2 ^ 64 - 1)) % 2 ^ 64 = j0 := by omega
  rw [create_entity_recycled d k s r rest hcase]
  dsimp only
  rw [hidx]
  set ci := ((s.stores.getD k dfltArc).emplace_back d).count - 1 with hci
  have hget0 : (s.id_index_pairs.set j0 (r, ci)).getD j0 (0, 0) = (r, ci) :=
    getD_set_self _ _ _ _ hj0
  have hlenS : (s.id_index_pairs.set j0 (r, ci)).length = s.id_index_pairs.length :=
    List.length_set _ _ _
  have hfree : (rest.filter fun x => x % 2 ^ 32 == j0 + 1).length = 0 := by
    have h5 := I5 j0 hj0
    rw [hcase, List.filter_cons, if_pos (by simp only [beq_iff_eq]; omega)] at h5
    simp only [List.length_cons] at h5
    omega
  constructor
  · refine ⟨?_, ?_, ?_, ?_, ?_, ?_, ?_⟩
    · rw [hlenS]
      omega
    · intro j hj
      rw [hlenS] at hj
      by_cases hjj : j = j0
      · subst hjj
        rw [hget0]
        exact Or.inr ⟨g0, by omega, hr⟩
      · rw [getD_set_ne _ _ _ _ _ hjj]
        rcases I2 j hj with h0 | ⟨g, hg, hv⟩
        · exact Or.inl h0
        · exact Or.inr ⟨g, by omega, hv⟩
    · intro rr hrr
      obtain ⟨j, hj, g, h1, h2, hv⟩ :=
        I3 rr (by rw [hcase]; exact List.mem_cons_of_mem r hrr)
      refine ⟨j, ?_, g, h1, by omega, hv⟩
      rw [hlenS]
      exact hj
    · intro i hi
      rcases List.mem_append.mp hi with hio | hin
      · obtain ⟨j, hj, g, hg, hv⟩ := I4 i hio
        refine ⟨j, ?_, g, by omega, hv⟩
        rw [hlenS]
        exact hj
      · simp only [List.mem_singleton] at hin
        subst hin
        refine ⟨j0, ?_, g0, by omega, hr⟩
        rw [hlenS]
        exact hj0
    · intro j hj
      rw [hlenS] at hj
      by_cases hjj : j = j0
      · subst hjj
        rw [hget0]
        dsimp only
        rw [if_neg hrne, hfree]
      · rw [getD_set_ne _ _ _ _ _ hjj]
        have h5 := I5 j hj
        rw [hcase, List.filter_cons, if_neg (by simp only [beq_iff_eq]; omega)] at h5
        exact h5
    · intro i hi j hj hmod hne
      rw [hlenS] at hj
      rcases List.mem_append.mp hi with hio | hin
      · by_cases hjj : j = j0
        · subst hjj
          rw [hget0]
          dsimp only
          have h7 := I7 i hio r (by rw [hcase]; exact List.mem_cons_self r rest) (by omega)
          omega
        · rw [getD_set_ne _ _ _ _ _ hjj] at hne ⊢
          exact I6 i hio j hj hmod hne
      · simp only [List.mem_singleton] at hin
        subst hin
        have hjj : j = j0 := by omega
        subst hjj
        rw [hget0]
    · intro i hi rr hrr
      rcases List.mem_append.mp hi with hio | hin
      · exact I7 i hio rr (by rw [hcase]; exact List.mem_cons_of_mem _ hrr)
      · simp only [List.mem_singleton] at hin
        subst hin
        intro hmm
        exfalso
        obtain ⟨j, hj, g, h1, h2, hv⟩ :=
          I3 rr (by rw [hcase]; exact List.mem_cons_of_mem _ hrr)
        have hj32 : j + 1 < 2 ^ 32 := by omega
        have hjj : j = j0 := by omega
        have hmem : rr ∈ rest.filter fun x => x % 2 ^ 32 == j0 + 1 :=
          List.mem_filter.mpr ⟨hrr, by simp only [beq_iff_eq]; omega⟩
        rw [List.length_eq_zero] at hfree
        rw [hfree] at hmem
        simp at hmem
  · intro i hi hcon
    subst hcon
    have h7 := I7 i hi i (by rw [hcase]; exact List.mem_cons_self _ _) rfl
    omega

/-- `destroy_entity` with a nonzero-id handle preserves the identity
invariant (with the budget raised by one). -/
theorem destroy_inv (s : Scene α) (issued : List Nat) (b : Nat) (e : EntityHandle)
    (hinv : IdInv s issued b) (he : e.id ≠ 0) (hb : b + 1 < 2 ^ 32) :
    IdInv (s.destroy_entity e) issued (b + 1) := by
  cases hfind : s.find_component_index e with
  | none =>
      rw [destroy_entity_none s e hfind]
      exact IdInv_mono s issued b (b + 1) (by omega) hinv
  | some ci =>
      have hmatch : (s.id_index_pairs.getD (Scene.slot_hash e) (0, 0)).1 = e.id := by
        unfold Scene.find_component_index at hfind
        by_cases hc : (s.id_index_pairs.getD (Scene.slot_hash e) (0, 0)).1 ≠ e.id
        · rw [if_pos hc] at hfind
          exact absurd hfind (by simp)
        · exact not_not.mp hc
      obtain ⟨I1, I2, I3, I4, I5, I6, I7⟩ := hinv
      have hin : Scene.slot_hash e < s.id_index_pairs.length := by
        by_contra ho
        rw [List.getD_eq_default _ _ (by omega)] at hmatch
        exact he hmatch.symm
      obtain ⟨g, hgb, hgv⟩ : ∃ g ≤ b,
          e.id = g * 2 ^ 32 + (Scene.slot_hash e + 1) := by
        rcases I2 (Scene.slot_hash e) hin with h0 | ⟨g, hg, hv⟩
        · rw [hmatch] at h0
          exact absurd h0 he
        · rw [hmatch] at hv
          exact ⟨g, hg, hv⟩
      have hj032 : Scene.slot_hash e + 1 < 2 ^ 32 := by omega
      rw [destroy_entity_of_find s e ci hfind]
      by_cases harch : e.archetype_index < s.stores.length
      · rw [if_pos harch]
        have hpush : (e.id + 2 ^ 32) % 2 ^ 64 =
            (g + 1) * 2 ^ 32 + (Scene.slot_hash e + 1) := by omega
        have hL := destroy_at_arc_pairs_length e.archetype_index e ci s
        have hR := destroy_at_arc_recycled e.archetype_index e ci s
        have hF := destroy_at_arc_pairs_fst e.archetype_index e ci s
        refine ⟨?_, ?_, ?_, ?_, ?_, ?_, ?_⟩
        · rw [hL]
          omega
        · intro j hj
          rw [hL] at hj
          rw [hF j]
          by_cases hjj : j = Scene.slot_hash e
          · rw [if_pos ⟨hjj, hj⟩]
            exact Or.inl rfl
          · rw [if_neg (fun hc => hjj hc.1)]
            rcases I2 j hj with h0 | ⟨g', hg', hv'⟩
            · exact Or.inl h0
            · exact Or.inr ⟨g', by omega, hv'⟩
        · intro rr hrr
          rw [hR] at hrr
          rcases List.mem_cons.mp hrr with hrr0 | hrrm
          · refine ⟨Scene.slot_hash e, ?_, g + 1, by omega, by omega, hrr0.trans hpush⟩
            rw [hL]
            exact hin
          · obtain ⟨j, hj, g', h1, h2, hv'⟩ := I3 rr hrrm
            refine ⟨j, ?_, g', h1, by omega, hv'⟩
            rw [hL]
            exact hj
        · intro i hi
          obtain ⟨j, hj, g', hg', hv'⟩ := I4 i hi
          refine ⟨j, ?_, g', by omega, hv'⟩
          rw [hL]
          exact hj
        · intro j hj
          rw [hL] at hj
          rw [hF j, hR, hpush]
          by_cases hjj : j = Scene.slot_hash e
          · rw [if_pos (⟨hjj, hj⟩ : j = Scene.slot_hash e ∧
                j < s.id_index_pairs.length),
              if_pos (rfl : (0 : Nat) = 0),
              List.filter_cons,
              if_pos (show (((g + 1) * 2 ^ 32 + (Scene.slot_hash e + 1)) % 2 ^ 32 ==
                j + 1) = true by simp only [beq_iff_eq]; omega)]
            have h5 := I5 j hj
            rw [if_neg (show ¬(s.id_index_pairs.getD j (0, 0)).1 = 0 by
              rw [hjj, hmatch]; exact he)] at h5
            simp only [List.length_cons]
            omega
          · rw [if_neg (show ¬(j = Scene.slot_hash e ∧ j < s.id_index_pairs.length) from
                fun hc => hjj hc.1),
              List.filter_cons,
              if_neg (show ¬(((g + 1) * 2 ^ 32 + (Scene.slot_hash e + 1)) % 2 ^ 32 ==
                j + 1) = true by simp only [beq_iff_eq]; omega)]
            exact I5 j hj
        · intro i hi j hj hmod hne
          rw [hL] at hj
          rw [hF j] at hne ⊢
          by_cases hjj : j = Scene.slot_hash e
          · rw [if_pos (⟨hjj, hj⟩ : j = Scene.slot_hash e ∧
                j < s.id_index_pairs.length)] at hne
            exact absurd rfl hne
          · rw [if_neg (show ¬(j = Scene.slot_hash e ∧ j < s.id_index_pairs.length) from
                fun hc => hjj hc.1)] at hne ⊢
            exact I6 i hi j hj hmod hne
        · intro i hi rr hrr
          rw [hR] at hrr
          rcases List.mem_cons.mp hrr with hrr0 | hrrm
          · intro hmm
            have h6 := I6 i hi (Scene.slot_hash e) hin (by omega)
              (by rw [hmatch]; exact he)
            rw [hmatch] at h6
            omega
          · exact I7 i hi rr hrrm
      · rw [if_neg harch]
        exact IdInv_mono s issued b (b + 1) (by omega) ⟨I1, I2, I3, I4, I5, I6, I7⟩

/-- The empty-table scene satisfies the id invariant with budget `0`. -/
theorem IdInv_empty (st : List (Arc α)) : IdInv (⟨[], [], st⟩ : Scene α) [] 0 :=
  ⟨Nat.le_refl 0,
   fun j hj => absurd hj (Nat.not_lt_zero j),
   fun r hr => absurd hr (List.not_mem_nil r),
   fun i hi => absurd hi (List.not_mem_nil i),
   fun j hj => absurd hj (Nat.not_lt_zero j),
   fun i hi => absurd hi (List.not_mem_nil i),
   fun i hi => absurd hi (List.not_mem_nil i)⟩

/-- Main induction for id uniqueness: from any scene satisfying the id
invariant with budget `b`, a sequence of fewer than `2 ^ 32 - b` lifecycle
calls whose destroyed handles carry nonzero ids issues ids that are
pairwise distinct and distinct from every previously issued id. -/
theorem run_ids_distinct_go (d : α) (ops : List Op) :
    ∀ (s : Scene α) (issued : List Nat) (b : Nat),
      IdInv s issued b → b + ops.length < 2 ^ 32 →
      (∀ e, Op.destroy e ∈ ops → e.id ≠ 0) →
      (∀ i ∈ issued, i ∉ (Scene.run d ops s).2) ∧ (Scene.run d ops s).2.Nodup := by
  induction ops with
  | nil =>
      intro s issued b _ _ _
      exact ⟨fun i _ => List.not_mem_nil i, List.nodup_nil⟩
  | cons op rest ih =>
      intro s issued b hinv hb hdz
      simp only [List.length_cons] at hb
      cases op with
      | create k =>
          have hstep : IdInv (s.create_entity d k).1
              (issued ++ [(s.create_entity d k).2.id]) (b + 1) ∧
              ∀ i ∈ issued, i ≠ (s.create_entity d k).2.id := by
            cases hcase : s.recycled_ids with
            | nil => exact create_fresh_inv d k s issued b hinv hcase (by omega)
            | cons r rest2 =>
                exact create_recycled_inv d k s issued b r rest2 hinv hcase (by omega)
          obtain ⟨hinv2, hne⟩ := hstep
          have hrest := ih (s.create_entity d k).1
            (issued ++ [(s.create_entity d k).2.id]) (b + 1) hinv2 (by omega)
            (fun e he => hdz e (List.mem_cons_of_mem _ he))
          rw [run_cons_create]
          dsimp only
          constructor
          · intro i hi
            simp only [List.mem_cons, not_or]
            exact ⟨hne i hi, hrest.1 i (List.mem_append_left _ hi)⟩
          · exact List.nodup_cons.mpr
              ⟨hrest.1 _ (List.mem_append_right _ (List.mem_singleton.mpr rfl)), hrest.2⟩
      | destroy e =>
          have he : e.id ≠ 0 := hdz e (List.mem_cons_self _ _)
          have hinv2 := destroy_inv s issued b e hinv he (by omega)
          rw [run_cons_destroy]
          exact ih (s.destroy_entity e) issued (b + 1) hinv2 (by omega)
            (fun e2 he2 => hdz e2 (List.mem_cons_of_mem _ he2))

/-- `run` distributes over concatenation of call sequences: the final
scene threads through and the issued ids concatenate. -/
theorem run_append (d : α) (ops1 ops2 : List Op) :
    ∀ s : Scene α, Scene.run d (ops1 ++ ops2) s =
      ((Scene.run d ops2 (Scene.run d ops1 s).1).1,
       (Scene.run d ops1 s).2 ++ (Scene.run d ops2 (Scene.run d ops1 s).1).2) := by
  induction ops1 with
  | nil => intro s; rfl
  | cons op rest ih =>
      intro s
      cases op with
      | create k =>
          rw [List.cons_append, run_cons_create, run_cons_create, ih]
          rfl
      | destroy e =>
          rw [List.cons_append, run_cons_destroy, run_cons_destroy, ih]

/-- One create/destroy round of the wraparound scenario advances the
steady state and issues `genId j`. -/
theorem wrap_step (j : Nat) :
    Scene.run 0 [Op.create 0, Op.destroy ⟨0, genId j⟩] (sceneWAt j) =
      (sceneWAt (j + 1), [genId j]) := by
  have hmod : genId j % 2 ^ 32 = 1 := by
    unfold genId
    omega
  have hidx : (genId j % 2 ^ 32 + (2 ^ 64 - 1)) % 2 ^ 64 = 0 := by omega
  have hid : (genId j + 2 ^ 32) % 2 ^ 64 = genId (j + 1) := by
    unfold genId
    omega
  have hc : (sceneWAt j).create_entity 0 0 =
      ((⟨[(genId j, 0)], [], [⟨[], 4, 1, [⟨⟨0, genId j⟩, []⟩]⟩]⟩ : Scene Nat),
       ⟨0, genId j⟩) := by
    rw [create_entity_recycled 0 0 (sceneWAt j) (genId j) [] rfl]
    rw [show ((genId j % 2 ^ 32 + (2 ^ 64 - 1)) % 2 ^ 64) = 0 from hidx]
    rfl
  have hd : Scene.destroy_entity
      (⟨[(genId j, 0)], [], [⟨[], 4, 1, [⟨⟨0, genId j⟩, []⟩]⟩]⟩ : Scene Nat)
      ⟨0, genId j⟩ = sceneWAt (j + 1) := by
    have hfind : (⟨[(genId j, 0)], [],
        [⟨[], 4, 1, [⟨⟨0, genId j⟩, []⟩]⟩]⟩ : Scene Nat).find_component_index
        ⟨0, genId j⟩ = some 0 := by
      unfold Scene.find_component_index
      dsimp only
      rw [show Scene.slot_hash ⟨0, genId j⟩ = 0 from hidx]
      rw [if_neg (by simp)]
      rfl
    rw [destroy_entity_of_find _ _ _ hfind]
    rw [if_pos (show (⟨0, genId j⟩ : EntityHandle).archetype_index <
        (⟨[(genId j, 0)], [],
          [⟨[], 4, 1, [⟨⟨0, genId j⟩, []⟩]⟩]⟩ : Scene Nat).stores.length
      from Nat.one_pos)]
    dsimp only
    rw [destroy_at_arc_no_swap 0 ⟨0, genId j⟩ 0
      (⟨[(genId j, 0)], [], [⟨[], 4, 1, [⟨⟨0, genId j⟩, []⟩]⟩]⟩ : Scene Nat) (by rfl)]
    rw [show Scene.slot_hash ⟨0, genId j⟩ = 0 from hidx, hid]
    rfl
  rw [run_cons_create, hc]
  dsimp only
  rw [run_cons_destroy, hd]
  rfl

/-- `m ≥ 1` rounds of the wraparound scenario reach the steady state
`sceneWAt m`, having issued exactly `genId 0, …, genId (m - 1)`. -/
theorem wrap_run : ∀ m : Nat, 1 ≤ m →
    Scene.run 0 (wrapOps m) sceneW = (sceneWAt m, (List.range m).map genId) := by
  intro m
  induction m with
  | zero => intro h; omega
  | succ n ih =>
      intro _
      cases Nat.eq_zero_or_pos n with
      | inl h0 =>
          subst h0
          decide
      | inr h1 =>
          have hsplit : wrapOps (n + 1) =
              wrapOps n ++ [Op.create 0, Op.destroy ⟨0, genId n⟩] := by
            unfold wrapOps
            rw [List.range_succ, List.flatMap_append]
            rfl
          rw [hsplit, run_append, ih h1]
          dsimp only
          rw [wrap_step n]
          dsimp only
          rw [List.range_succ, List.map_append]
          rfl

/-! ## Claim theorems -/

/-- **C1** (error_handling): for every scene state and every handle whose
id differs from the id stored in the slot table at the handle's slot
index, `get_components` returns null for every requested type and
`destroy_entity` is a silent no-op that leaves the scene unchanged (and
neither operation can raise: the stale path performs no store access and
no allocation). -/
theorem stale_handle_is_silent (d : α) (s : Scene α) (e : EntityHandle) (sels : List Sel)
    (_hin : Scene.slot_hash e < s.id_index_pairs.length)
    (hstale : (s.id_index_pairs.getD (Scene.slot_hash e) (0, 0)).1 ≠ e.id) :
    s.get_components d e sels = sels.map (fun _ => none) ∧ s.destroy_entity e = s := by
  have hfind : s.find_component_index e = none := by
    unfold Scene.find_component_index
    exact if_pos hstale
  constructor
  · unfold Scene.get_components
    rw [hfind]
  · unfold Scene.destroy_entity
    rw [hfind]

/-- Witness for C1: in a one-slot scene whose slot `0` holds id `5`, the
stale handle with id `1` queries to null and destroys to a no-op. -/
theorem stale_handle_is_silent_witness :
    (⟨[(5, 0)], [], []⟩ : Scene Nat).get_components 0 ⟨0, 1⟩ [Sel.handle, Sel.comp 10] =
      [none, none] ∧
    (⟨[(5, 0)], [], []⟩ : Scene Nat).destroy_entity ⟨0, 1⟩ = ⟨[(5, 0)], [], []⟩ :=
  stale_handle_is_silent 0 ⟨[(5, 0)], [], []⟩ ⟨0, 1⟩ [Sel.handle, Sel.comp 10]
    (by decide) (by decide)

/-- **C2** (functional_correctness, divergence witness): `destroy_entities`
pushes `pair.first + 2^32` for *every* slot-table entry, including slots
that are already free (`current_id = 0`).  In a scene whose table holds a
free slot `0` and an occupied slot `1` (id `2`), the recycle stack gains
`2^32` — a bogus id derived from the free slot, whose low 32 bits are `0`
so it does not even encode a slot index — alongside the correctly bumped
`2^32 + 2`.  The claim says free slots are not recycled. -/
theorem destroy_entities_recycles_free_slots :
    ((⟨[(0, 0), (2, 1)], [], []⟩ : Scene Nat).destroy_entities).recycled_ids =
      [2 ^ 32 + 2, 2 ^ 32] ∧ (2 ^ 32) % 2 ^ 32 = 0 := by
  decide

/-- **C5** (error_handling, divergence witness): growing a full two-column
store (`capacity = count = 1`) where column `0`'s `realloc` succeeds and
column `1`'s fails makes `push_back` signal the allocation failure with
`count` and `capacity` unchanged, but column `0`'s previously stored row
has been destroyed (the successfully reallocated buffer is freed while the
store still holds the stale old pointer), contradicting the claim that all
previously stored rows remain intact. -/
theorem failed_grow_destroys_live_columns :
    CArc.push_back [true, false] [5, 6] (⟨1, 1, [some [3], some [4]]⟩ : CArc Nat) =
      .error ⟨1, 1, [none, some [4]]⟩ ∧
    ([none, some [4]] : List (Option (List Nat))) ≠ [some [3], some [4]] :=
  ⟨rfl, by decide⟩

/-- **C6** (invariants, divergence witness): `destroy_entities` clears
every store, and `Arc::clear` zeroes `capacity` without freeing the
buffers; the next append calls `set_min_capacity(0 << 1)`, a no-op, so the
new row is constructed with `count = 1 > capacity = 0`, violating the
`count ≤ capacity` invariant the claim asserts is preserved. -/
theorem append_after_clear_breaks_capacity_invariant :
    ((((⟨[(1, 0)], [], [⟨[10], 4, 1, [⟨⟨0, 1⟩, [7]⟩]⟩]⟩ : Scene Nat).destroy_entities
      ).create_entity 0 0).1.stores.getD 0 dfltArc).count = 1 ∧
    ((((⟨[(1, 0)], [], [⟨[10], 4, 1, [⟨⟨0, 1⟩, [7]⟩]⟩]⟩ : Scene Nat).destroy_entities
      ).create_entity 0 0).1.stores.getD 0 dfltArc).capacity = 0 := by
  decide

/-- **C10** (functional_correctness): for a handle whose id matches the
slot table, both `get_components` and `destroy_entity` select the target
store purely from `handle.archetype_index`: the lookup returns the
requested columns of *that* store at the stored row index, and the destroy
swap-removes that row from *that* store — no hypothesis relates the index
to the archetype the entity was created in. -/
theorem lookup_trusts_archetype_index (d : α) (s : Scene α) (e : EntityHandle)
    (sels : List Sel)
    (hmatch : (s.id_index_pairs.getD (Scene.slot_hash e) (0, 0)).1 = e.id)
    (hb : e.archetype_index < s.stores.length) :
    s.get_components d e sels =
      sels.map (fun t => (s.stores.getD e.archetype_index dfltArc).try_get_component d t
        (s.id_index_pairs.getD (Scene.slot_hash e) (0, 0)).2) ∧
    (s.destroy_entity e).stores = s.stores.set e.archetype_index
      (let a := s.stores.getD e.archetype_index dfltArc
       let ci := (s.id_index_pairs.getD (Scene.slot_hash e) (0, 0)).2
       if ci ≠ a.count - 1 then (a.set_row ci a.back).pop_back else a.pop_back) := by
  have hfind : s.find_component_index e =
      some (s.id_index_pairs.getD (Scene.slot_hash e) (0, 0)).2 := by
    unfold Scene.find_component_index
    rw [if_neg (not_ne_iff.mpr hmatch)]
  have hget : s.stores.get? e.archetype_index =
      some (s.stores.getD e.archetype_index dfltArc) := by
    rw [getD_eq_get _ _ hb]
    exact List.get?_eq_get hb
  constructor
  · unfold Scene.get_components Scene.get_components_at
    rw [hfind, hget]
  · rw [destroy_entity_of_find s e _ hfind, if_pos hb,
      destroy_entity_at_arc_stores]

/-- Witness for C10: entity id `1` lives at row `0` of archetype `0`, but
a matching handle carrying `archetype_index = 1` reads component `20` out
of archetype `1`'s store and destroys archetype `1`'s row, leaving
archetype `0` untouched. -/
theorem lookup_trusts_archetype_index_witness :
    (⟨[(1, 0)], [], [⟨[10], 4, 1, [⟨⟨0, 1⟩, [7]⟩]⟩, ⟨[20], 4, 1, [⟨⟨1, 9⟩, [8]⟩]⟩]⟩ :
        Scene Nat).get_components 0 ⟨1, 1⟩ [Sel.comp 20] = [some (Sum.inr 8)] ∧
    ((⟨[(1, 0)], [], [⟨[10], 4, 1, [⟨⟨0, 1⟩, [7]⟩]⟩, ⟨[20], 4, 1, [⟨⟨1, 9⟩, [8]⟩]⟩]⟩ :
        Scene Nat).destroy_entity ⟨1, 1⟩).stores =
      [⟨[10], 4, 1, [⟨⟨0, 1⟩, [7]⟩]⟩, ⟨[20], 4, 0, []⟩] :=
  lookup_trusts_archetype_index 0
    ⟨[(1, 0)], [], [⟨[10], 4, 1, [⟨⟨0, 1⟩, [7]⟩]⟩, ⟨[20], 4, 1, [⟨⟨1, 9⟩, [8]⟩]⟩]⟩
    ⟨1, 1⟩ [Sel.comp 20] (by decide) (by decide)

/-- **C9** (functional_correctness): `for_each` invokes the visitor
exactly on the rows of the archetypes whose declared component sets
contain every requested type — archetypes in declaration order, rows
`0 … count - 1` ascending — passing exactly the requested columns
(including the entity handle when requested); non-matching archetypes
contribute zero invocations (the match is an `if constexpr`, resolved
once per archetype). -/
theorem for_each_visits_matching_rows (d : α) (sels : List Sel) (s : Scene α)
    (hwf : WF s) :
    s.for_each d sels = for_each_spec d sels s :=
  for_each_trace_eq d sels s.stores hwf

/-- Witness for C9: a two-archetype scene where only the first archetype
declares component `10`; the trace visits exactly that archetype's row. -/
theorem for_each_visits_matching_rows_witness :
    (⟨[(1, 0), (2, 0)], [],
        [⟨[10], 4, 1, [⟨⟨0, 1⟩, [7]⟩]⟩, ⟨[20], 4, 1, [⟨⟨1, 2⟩, [9]⟩]⟩]⟩ :
      Scene Nat).for_each 0 [Sel.handle, Sel.comp 10] =
      for_each_spec 0 [Sel.handle, Sel.comp 10]
        ⟨[(1, 0), (2, 0)], [],
          [⟨[10], 4, 1, [⟨⟨0, 1⟩, [7]⟩]⟩, ⟨[20], 4, 1, [⟨⟨1, 2⟩, [9]⟩]⟩]⟩ :=
  for_each_visits_matching_rows 0 [Sel.handle, Sel.comp 10]
    ⟨[(1, 0), (2, 0)], [],
      [⟨[10], 4, 1, [⟨⟨0, 1⟩, [7]⟩]⟩, ⟨[20], 4, 1, [⟨⟨1, 2⟩, [9]⟩]⟩]⟩
    (by unfold WF; decide)

/-- **C3** (functional_correctness): `destroy_entities_where(p)` removes,
in each archetype whose declared component set contains `p`'s parameter
types, exactly the rows on which `p` holds (as a multiset — order is not
preserved because removal is by swap-remove), leaves the store's `count`
decremented by exactly the number of matching rows, and does not touch
archetypes that do not declare the requested types.  The backward
(last-to-first) traversal is what makes re-examination of just-moved rows
— and hence this exactness — hold. -/
theorem destroy_where_removes_exactly_matching (d : α) (sels : List Sel)
    (p : List (EntityHandle ⊕ α) → Bool) (s : Scene α) (hwf : WF s)
    (k : Nat) (hk : k < s.stores.length) :
    if (s.stores.getD k dfltArc).has_components sels then
      ((s.destroy_entities_where d sels p).stores.getD k dfltArc).rows.Perm
        ((s.stores.getD k dfltArc).rows.filter fun r =>
          !row_pred d sels p (s.stores.getD k dfltArc).tys r) ∧
      ((s.destroy_entities_where d sels p).stores.getD k dfltArc).count =
        (s.stores.getD k dfltArc).count -
          ((s.stores.getD k dfltArc).rows.filter fun r =>
            row_pred d sels p (s.stores.getD k dfltArc).tys r).length
    else
      (s.destroy_entities_where d sels p).stores.getD k dfltArc =
        s.stores.getD k dfltArc := by
  have hwfd : ∀ m, (s.stores.getD m dfltArc).count =
      (s.stores.getD m dfltArc).rows.length := by
    intro m
    by_cases hm : m < s.stores.length
    · rw [getD_eq_get _ _ hm]
      exact hwf _ (List.get_mem _ _ _)
    · rw [List.getD_eq_default _ _ (by omega)]
      rfl
  obtain ⟨_, _, F3⟩ := dew_fold_fields d sels p (List.range s.stores.length) s
    (List.nodup_range s.stores.length) hwfd
  have hres : (s.destroy_entities_where d sels p).stores.getD k dfltArc =
      dew_arc_result d sels p (s.stores.getD k dfltArc) :=
    F3 k (List.mem_range.mpr hk)
  set a := s.stores.getD k dfltArc with ha
  unfold dew_arc_result at hres
  by_cases hm : a.has_components sels
  · rw [if_pos hm] at hres
    rw [if_pos hm, hres]
    have hperm := passL_perm dfltRow (row_pred d sels p a.tys) a.rows
    refine ⟨hperm, ?_⟩
    show (passL dfltRow (row_pred d sels p a.tys) a.rows).length = _
    rw [hperm.length_eq]
    have hpart : (a.rows.filter fun r => !row_pred d sels p a.tys r).length +
        (a.rows.filter fun r => row_pred d sels p a.tys r).length = a.rows.length :=
      length_filter_not_add _ _
    have hc : a.count = a.rows.length := hwfd k
    rw [hc]
    omega
  · rw [if_neg hm] at hres
    rw [if_neg hm, hres]

/-- Witness for C3: a one-archetype scene with three rows whose component
`10` holds the values `7, 5, 7`; destroying where the value is `7`
leaves exactly the `5` row and decrements the count by two. -/
theorem destroy_where_removes_exactly_matching_witness :
    (((⟨[(1, 0), (2, 1), (3, 2)], [],
        [⟨[10], 4, 3, [⟨⟨0, 1⟩, [7]⟩, ⟨⟨0, 2⟩, [5]⟩, ⟨⟨0, 3⟩, [7]⟩]⟩]⟩ :
          Scene Nat).destroy_entities_where 0 [Sel.comp 10]
        (fun l => match l with | [Sum.inr v] => v == 7 | _ => false)
      ).stores.getD 0 dfltArc).rows.Perm
      (((⟨[(1, 0), (2, 1), (3, 2)], [],
        [⟨[10], 4, 3, [⟨⟨0, 1⟩, [7]⟩, ⟨⟨0, 2⟩, [5]⟩, ⟨⟨0, 3⟩, [7]⟩]⟩]⟩ :
          Scene Nat).stores.getD 0 dfltArc).rows.filter fun r =>
        !row_pred 0 [Sel.comp 10]
          (fun l => match l with | [Sum.inr v] => v == 7 | _ => false)
          ((⟨[(1, 0), (2, 1), (3, 2)], [],
            [⟨[10], 4, 3, [⟨⟨0, 1⟩, [7]⟩, ⟨⟨0, 2⟩, [5]⟩, ⟨⟨0, 3⟩, [7]⟩]⟩]⟩ :
              Scene Nat).stores.getD 0 dfltArc).tys r) ∧
    (((⟨[(1, 0), (2, 1), (3, 2)], [],
        [⟨[10], 4, 3, [⟨⟨0, 1⟩, [7]⟩, ⟨⟨0, 2⟩, [5]⟩, ⟨⟨0, 3⟩, [7]⟩]⟩]⟩ :
          Scene Nat).destroy_entities_where 0 [Sel.comp 10]
        (fun l => match l with | [Sum.inr v] => v == 7 | _ => false)
      ).stores.getD 0 dfltArc).count = 3 - 2 :=
  destroy_where_removes_exactly_matching 0 [Sel.comp 10]
    (fun l => match l with | [Sum.inr v] => v == 7 | _ => false)
    ⟨[(1, 0), (2, 1), (3, 2)], [],
      [⟨[10], 4, 3, [⟨⟨0, 1⟩, [7]⟩, ⟨⟨0, 2⟩, [5]⟩, ⟨⟨0, 3⟩, [7]⟩]⟩]⟩
    (by unfold WF; decide) 0 (by decide)

/-- **C8** (algebraic_relational): destroying a just-created entity of the
archetype at index `k` and then creating from that archetype again yields
a handle that reuses the same slot (equal low 32 bits) with the
generation (high 32 bits) incremented by exactly one, and the two ids
compare unequal.  Hypotheses: the archetype index is declared; every
stacked recycled id has a nonzero slot part addressing an existing slot
and a generation that cannot overflow `uint64`; the slot table is below
the `2^32` packing limit. -/
theorem destroy_create_bumps_generation (d : α) (s : Scene α) (k : Nat)
    (hk : k < s.stores.length)
    (hrec : ∀ r ∈ s.recycled_ids,
      1 ≤ r % 2 ^ 32 ∧ r % 2 ^ 32 - 1 < s.id_index_pairs.length ∧ r + 2 ^ 32 < 2 ^ 64)
    (hlen : s.id_index_pairs.length + 1 < 2 ^ 32) :
    (((s.create_entity d k).1.destroy_entity
        (s.create_entity d k).2).create_entity d k).2.id % 2 ^ 32 =
      (s.create_entity d k).2.id % 2 ^ 32 ∧
    (((s.create_entity d k).1.destroy_entity
        (s.create_entity d k).2).create_entity d k).2.id / 2 ^ 32 =
      (s.create_entity d k).2.id / 2 ^ 32 + 1 ∧
    (((s.create_entity d k).1.destroy_entity
        (s.create_entity d k).2).create_entity d k).2.id ≠
      (s.create_entity d k).2.id := by
  have hmain : (((s.create_entity d k).1.destroy_entity
      (s.create_entity d k).2).create_entity d k).2.id =
      (s.create_entity d k).2.id + 2 ^ 32 := by
    cases hcase : s.recycled_ids with
    | nil =>
        rw [create_entity_fresh d k s hcase]
        dsimp only
        have hmod : (s.id_index_pairs.length + 1) % 2 ^ 32 = s.id_index_pairs.length + 1 :=
          Nat.mod_eq_of_lt (by omega)
        have hhash : Scene.slot_hash ⟨k, s.id_index_pairs.length + 1⟩ =
            s.id_index_pairs.length := by
          rw [slot_hash_of_lowbits ⟨k, s.id_index_pairs.length + 1⟩
            (by show 1 ≤ (s.id_index_pairs.length + 1) % 2 ^ 32; rw [hmod]; omega)]
          show (s.id_index_pairs.length + 1) % 2 ^ 32 - 1 = _
          rw [hmod]
          omega
        have hfind : (⟨s.id_index_pairs ++
            [(s.id_index_pairs.length + 1,
              ((s.stores.getD k dfltArc).emplace_back d).count - 1)], [],
            s.stores.set k (((s.stores.getD k dfltArc).emplace_back d).set_last_handle
              ⟨k, s.id_index_pairs.length + 1⟩)⟩ : Scene α).find_component_index
            ⟨k, s.id_index_pairs.length + 1⟩ =
            some (((s.stores.getD k dfltArc).emplace_back d).count - 1) := by
          unfold Scene.find_component_index
          dsimp only
          rw [hhash, getD_append_length]
          rw [if_neg (by simp)]
        rw [destroy_entity_of_find _ _ _ hfind, if_pos (by simpa using hk)]
        rw [destroy_at_arc_no_swap _ _ _ _ (by
          rw [getD_set_self _ _ _ _ (by simpa using hk)]
          rfl)]
        rw [create_entity_recycled d k _
          (((⟨k, s.id_index_pairs.length + 1⟩ : EntityHandle).id + 2 ^ 32) % 2 ^ 64) [] rfl]
        show ((s.id_index_pairs.length + 1) + 2 ^ 32) % 2 ^ 64 = _
        exact Nat.mod_eq_of_lt (by omega)
    | cons r rest =>
        obtain ⟨hr1, hr2, hr3⟩ := hrec r (by rw [hcase]; exact List.mem_cons_self r rest)
        rw [create_entity_recycled d k s r rest hcase]
        dsimp only
        have hjval : Scene.slot_hash ⟨k, r⟩ = r % 2 ^ 32 - 1 :=
          slot_hash_of_lowbits ⟨k, r⟩ hr1
        have hfind : (⟨s.id_index_pairs.set ((r % 2 ^ 32 + (2 ^ 64 - 1)) % 2 ^ 64)
            (r, ((s.stores.getD k dfltArc).emplace_back d).count - 1), rest,
            s.stores.set k (((s.stores.getD k dfltArc).emplace_back d).set_last_handle
              ⟨k, r⟩)⟩ : Scene α).find_component_index ⟨k, r⟩ =
            some (((s.stores.getD k dfltArc).emplace_back d).count - 1) := by
          unfold Scene.find_component_index
          dsimp only
          rw [show ((r % 2 ^ 32 + (2 ^ 64 - 1)) % 2 ^ 64) = Scene.slot_hash ⟨k, r⟩ from rfl,
            getD_set_self _ _ _ _ (by rw [hjval]; exact hr2)]
          rw [if_neg (by simp)]
        rw [destroy_entity_of_find _ _ _ hfind, if_pos (by simpa using hk)]
        rw [destroy_at_arc_no_swap _ _ _ _ (by
          rw [getD_set_self _ _ _ _ (by simpa using hk)]
          rfl)]
        rw [create_entity_recycled d k _
          (((⟨k, r⟩ : EntityHandle).id + 2 ^ 32) % 2 ^ 64) rest rfl]
        show (r + 2 ^ 32) % 2 ^ 64 = _
        exact Nat.mod_eq_of_lt (by omega)
  refine ⟨?_, ?_, ?_⟩
  · rw [hmain]
    exact Nat.add_mod_right _ _
  · rw [hmain]
    exact Nat.add_div_right _ (by norm_num)
  · rw [hmain]
    omega

/-- Witness for C8: from an empty one-archetype scene, create (id `1`),
destroy, create again: the new id is `2^32 + 1` — same slot bits, one
higher generation, different id. -/
theorem destroy_create_bumps_generation_witness :
    ((((⟨[], [], [⟨[], 4, 0, []⟩]⟩ : Scene Nat).create_entity 0 0).1.destroy_entity
        ((⟨[], [], [⟨[], 4, 0, []⟩]⟩ : Scene Nat).create_entity 0 0).2).create_entity
        0 0).2.id % 2 ^ 32 =
      ((⟨[], [], [⟨[], 4, 0, []⟩]⟩ : Scene Nat).create_entity 0 0).2.id % 2 ^ 32 ∧
    ((((⟨[], [], [⟨[], 4, 0, []⟩]⟩ : Scene Nat).create_entity 0 0).1.destroy_entity
        ((⟨[], [], [⟨[], 4, 0, []⟩]⟩ : Scene Nat).create_entity 0 0).2).create_entity
        0 0).2.id / 2 ^ 32 =
      ((⟨[], [], [⟨[], 4, 0, []⟩]⟩ : Scene Nat).create_entity 0 0).2.id / 2 ^ 32 + 1 ∧
    ((((⟨[], [], [⟨[], 4, 0, []⟩]⟩ : Scene Nat).create_entity 0 0).1.destroy_entity
        ((⟨[], [], [⟨[], 4, 0, []⟩]⟩ : Scene Nat).create_entity 0 0).2).create_entity
        0 0).2.id ≠
      ((⟨[], [], [⟨[], 4, 0, []⟩]⟩ : Scene Nat).create_entity 0 0).2.id :=
  destroy_create_bumps_generation 0 ⟨[], [], [⟨[], 4, 0, []⟩]⟩ 0 (by decide)
    (by intro r hr; simp at hr) (by decide)

/-- **C7** (functional_correctness, amended): for sequences of *fewer
than `2 ^ 32`* `create_entity` / `destroy_entity` calls on a fresh scene,
with every destroyed handle carrying a nonzero id, the ids returned by
the `create_entity` calls are pairwise distinct.  The original unbounded
claim is false: the generation counter lives in the high 32 bits of a
`uint64` id, so after `2 ^ 32` recycles of one slot it wraps and an
already-issued id is returned again (see `create_ids_can_repeat`). -/
theorem create_ids_distinct_bounded (d : α) (st : List (Arc α)) (ops : List Op)
    (hops : ops.length < 2 ^ 32)
    (hdz : ∀ e, Op.destroy e ∈ ops → e.id ≠ 0) :
    (Scene.run d ops (⟨[], [], st⟩ : Scene α)).2.Nodup :=
  (run_ids_distinct_go d ops ⟨[], [], st⟩ [] 0 (IdInv_empty st) (by omega) hdz).2

/-- Witness for C7: the three calls create / destroy the issued handle
(id `1`) / create issue the distinct ids `1` and `2 ^ 32 + 1`. -/
theorem create_ids_distinct_bounded_witness :
    ([Op.create 0, Op.destroy ⟨0, 1⟩, Op.create 0] : List Op).length < 2 ^ 32 ∧
    (Scene.run 0 [Op.create 0, Op.destroy ⟨0, 1⟩, Op.create 0]
      (⟨[], [], [⟨[], 4, 0, []⟩]⟩ : Scene Nat)).2.Nodup :=
  ⟨by decide,
   create_ids_distinct_bounded 0 [⟨[], 4, 0, []⟩]
     [Op.create 0, Op.destroy ⟨0, 1⟩, Op.create 0] (by decide)
     (by
       intro e he
       simp only [List.mem_cons, List.not_mem_nil, or_false] at he
       rcases he with h | h | h
       · exact Op.noConfusion h
       · injection h with h1
         subst h1
         decide
       · exact Op.noConfusion h)⟩

/-- Counterexample to C7 as stated: `2 ^ 32` rounds of create-and-destroy
on one slot wrap the 32-bit generation, so the next `create_entity` call
returns id `1` — already issued by the very first call — and the list of
issued ids is not duplicate-free. -/
theorem create_ids_can_repeat :
    ¬ (Scene.run 0 (wrapOps (2 ^ 32) ++ [Op.create 0]) sceneW).2.Nodup := by
  intro hnd
  rw [run_append, wrap_run (2 ^ 32) (by norm_num)] at hnd
  dsimp only at hnd
  have hmem1 : genId (2 ^ 32) ∈ (List.range (2 ^ 32)).map genId := by
    rw [show genId (2 ^ 32) = genId 0 from by decide]
    exact List.mem_map_of_mem genId (List.mem_range.mpr (by norm_num))
  have hmem2 : genId (2 ^ 32) ∈
      (Scene.run 0 [Op.create 0] (sceneWAt (2 ^ 32))).2 := by
    rw [run_cons_create,
      create_entity_recycled 0 0 (sceneWAt (2 ^ 32)) (genId (2 ^ 32)) [] rfl]
    exact List.mem_cons_self _ _
  exact (List.nodup_append.mp hnd).2.2 hmem1 hmem2

end ECS
